import Mathlib

/-
Verification development for the gcache in-process cache library.

This file shallowly embeds the ARC and LRU eviction engines and the shared
read-through machinery of the Go source (cache.go, lru.go, and the unnamed
ARC source file) and proves or refutes the frozen specification claims.

Modelling conventions:
- Go `time.Time` instants and `time.Duration` values are both modelled as
  integers (`Time := Int`); `t.Before(u)` is `t < u`, `t.Add(d)` is `t + d`.
- The cache's configured `Clock` is modelled by a `clock : Time` field in the
  state (the instant the configured clock currently reports).  Operations
  that call `time.Now()` directly in the source instead take a separate
  `realNow : Time` argument (the ambient wall-clock instant).
- Go maps are modelled as association lists with unique keys
  (`assocGet` / `assocSet` / `assocErase`).
- The `container/list` doubly-linked lists are modelled as Lean lists with
  the front at the head.
- Fallible code is explicit: a Go runtime panic (nil-map dereference,
  `RemoveTail` on an empty list) is modelled by an operation returning
  `none`; a returned Go `error` value is an `Err` in the result.
- Observation callbacks (`on_evicted`) are modelled as an event log
  appended to the state; the model corresponds to a cache built with an
  eviction callback configured.  `serialize`/`deserialize` hooks and the
  loader are passed as explicit optional function arguments.
- Go integer division in the ARC `p`-tuning arithmetic only ever divides
  two nonnegative list lengths, so it is modelled by `Nat` division cast
  to `Int`.
-/

set_option linter.unusedSectionVars false
set_option linter.unusedVariables false

namespace GCache

abbrev Time := Int

/-- Errors surfaced by cache operations: the `KeyNotFoundError` sentinel of
cache.go, or an error carrying a message (such as the one built by
`fmt.Errorf` in `baseCache.load`). -/
inductive Err where
  | keyNotFound
  | msg (s : String)
deriving DecidableEq, Repr

instance instDecEqExcept {E A : Type} [DecidableEq E] [DecidableEq A] :
    DecidableEq (Except E A) := fun x y =>
  match x, y with
  | Except.ok a, Except.ok b =>
      if h : a = b then isTrue (by rw [h])
      else isFalse (fun hh => h (by cases hh; rfl))
  | Except.error e, Except.error f =>
      if h : e = f then isTrue (by rw [h])
      else isFalse (fun hh => h (by cases hh; rfl))
  | Except.ok a, Except.error f => isFalse (fun hh => by cases hh)
  | Except.error e, Except.ok b => isFalse (fun hh => by cases hh)

/-- Association-list lookup, modelling a Go map read `m[k]` (comma-ok form). -/
def assocGet {K A : Type} [DecidableEq K] : List (K × A) → K → Option A
  | [], _ => none
  | (k', a) :: rest, k => if k = k' then some a else assocGet rest k

/-- Association-list insert/update, modelling a Go map write `m[k] = a`. -/
def assocSet {K A : Type} [DecidableEq K] : List (K × A) → K → A → List (K × A)
  | [], k, a => [(k, a)]
  | (k', a') :: rest, k, a =>
      if k = k' then (k, a) :: rest else (k', a') :: assocSet rest k a

/-- Association-list removal, modelling Go `delete(m, k)` (keys are unique
in a Go map, so removing every binding of `k` is the same operation). -/
def assocErase {K A : Type} [DecidableEq K] : List (K × A) → K → List (K × A)
  | [], _ => []
  | (k', a) :: rest, k =>
      if k = k' then assocErase rest k else (k', a) :: assocErase rest k

/-! ### arcList (the ARC source's ordered key list with a membership index) -/

/-- Model of `arcList.PushFront`: if the key is already present it is moved to the
front, otherwise it is pushed onto the front. -/
def arcPushFront {K : Type} [DecidableEq K] (l : List K) (k : K) : List K :=
  if k ∈ l then k :: l.erase k else k :: l

/-- Model of `list.MoveToFront` on the element holding `k` (used by `ARC.getValue` on a
T2 hit, where the element is known to be present). -/
def arcMoveToFront {K : Type} [DecidableEq K] (l : List K) (k : K) : List K :=
  k :: l.erase k

/-- Model of `arcList.RemoveTail`: pops the back element.  The Go code dereferences a
nil element when the list is empty, which the model renders as `none`. -/
def arcRemoveTail? {K : Type} (l : List K) : Option (K × List K) :=
  match l.getLast? with
  | none => none
  | some k => some (k, l.dropLast)

/-! ### Entry records -/

/-- The `arcItem` record: stored value and optional absolute expiration
instant (the `clock` field of the Go struct is the cache clock, carried in
the cache state here). -/
structure ArcItem (V : Type) where
  value : V
  expiration : Option Time
deriving DecidableEq, Repr

/-- The `lruItem` record. -/
structure LruItem (V : Type) where
  value : V
  expiration : Option Time
deriving DecidableEq, Repr

/-- Model of `arcItem.IsExpired`: with a `nil` argument the item's clock supplies the
instant, otherwise the supplied instant is used; the item is expired iff its
expiration instant lies strictly before that instant. -/
def arcItemIsExpired {V : Type} (it : ArcItem V) (clockNow : Time)
    (now? : Option Time) : Bool :=
  match it.expiration with
  | none => false
  | some e => decide (e < now?.getD clockNow)

/-- Model of `lruItem.IsExpired`, identical logic to the ARC item. -/
def lruItemIsExpired {V : Type} (it : LruItem V) (clockNow : Time)
    (now? : Option Time) : Bool :=
  match it.expiration with
  | none => false
  | some e => decide (e < now?.getD clockNow)

/-! ### ARC engine state -/

/-- The `ARC` cache state: capacity, configured-clock instant, optional
default TTL, the tuning target `part`, the four lists, the entry map, the
hit/miss counters and the `on_evicted` event log. -/
structure ArcState (K V : Type) where
  clock : Time
  size : Int
  defaultExp : Option Time
  part : Int
  t1 : List K
  t2 : List K
  b1 : List K
  b2 : List K
  items : List (K × ArcItem V)
  hits : Nat
  misses : Nat
  evicted : List (K × V)
deriving DecidableEq, Repr

/-- The state of a freshly built ARC cache (`newARC` / `ARC.init`). -/
def arcFresh (K V : Type) (size : Int) (clock : Time)
    (defaultExp : Option Time) : ArcState K V :=
  { clock := clock, size := size, defaultExp := defaultExp, part := 0,
    t1 := [], t2 := [], b1 := [], b2 := [], items := [],
    hits := 0, misses := 0, evicted := [] }

variable {K V : Type} [DecidableEq K]

/-- Model of `ARC.isCacheFull`. -/
def arcIsCacheFull (s : ArcState K V) : Bool :=
  decide ((s.t1.length + s.t2.length : Int) = s.size)

/-- Model of `ARC.setPart`: the suggested target is applied only while the cache is
full. -/
def arcSetPart (s : ArcState K V) (p : Int) : ArcState K V :=
  if arcIsCacheFull s then { s with part := p } else s

/-- The item-deletion-plus-callback block shared by `ARC.replace` and the
full-T1 branch of `ARC.set` (lines 54-60 and 142-148 of the ARC source). -/
def arcDeleteItemEvict (s : ArcState K V) (k : K) : ArcState K V :=
  match assocGet s.items k with
  | some it =>
      { s with items := assocErase s.items k,
               evicted := s.evicted ++ [(k, it.value)] }
  | none => s

/-- Model of `ARC.replace`: when the live lists are at capacity, move a victim from
the tail of T1 or T2 to the front of the corresponding ghost list and delete
its entry. -/
def arcReplace (s : ArcState K V) (key : K) : Option (ArcState K V) :=
  if ¬ arcIsCacheFull s then some s
  else if s.t1.length > 0 ∧
      ((key ∈ s.b2 ∧ (s.t1.length : Int) = s.part) ∨
        (s.t1.length : Int) > s.part) then
    match arcRemoveTail? s.t1 with
    | none => none
    | some (old, t1') =>
        some (arcDeleteItemEvict
          { s with t1 := t1', b1 := arcPushFront s.b1 old } old)
  else if s.t2.length > 0 then
    match arcRemoveTail? s.t2 with
    | none => none
    | some (old, t2') =>
        some (arcDeleteItemEvict
          { s with t2 := t2', b2 := arcPushFront s.b2 old } old)
  else
    match arcRemoveTail? s.t1 with
    | none => none
    | some (old, t1') =>
        some (arcDeleteItemEvict
          { s with t1 := t1', b1 := arcPushFront s.b1 old } old)

/-- The entry update at the start of `ARC.set`: store (or overwrite) the
value and re-apply the builder default TTL if configured. -/
def arcInsertItem (s : ArcState K V) (key : K) (value : V) : ArcState K V :=
  let exp0 := match assocGet s.items key with
    | some it => it.expiration
    | none => none
  let exp := match s.defaultExp with
    | some d => some (s.clock + d)
    | none => exp0
  { s with items := assocSet s.items key { value := value, expiration := exp } }

/-- The B1 ghost-rehit branch of `ARC.set` (lines 120-126). -/
def arcSetGhost1 (s : ArcState K V) (key : K) : Option (ArcState K V) :=
  match arcReplace (arcSetPart s
      (min s.size (s.part + max ((s.b2.length / s.b1.length : Nat) : Int) 1)))
      key with
  | none => none
  | some s2 =>
      some { s2 with b1 := s2.b1.erase key, t2 := arcPushFront s2.t2 key }

/-- The B2 ghost-rehit branch of `ARC.set` (lines 128-134). -/
def arcSetGhost2 (s : ArcState K V) (key : K) : Option (ArcState K V) :=
  match arcReplace (arcSetPart s
      (max 0 (s.part - max ((s.b1.length / s.b2.length : Nat) : Int) 1)))
      key with
  | none => none
  | some s2 =>
      some { s2 with b2 := s2.b2.erase key, t2 := arcPushFront s2.t2 key }

/-- The brand-new-key eviction logic of `ARC.set` (lines 136-162), before the
final push of the key onto the front of T1. -/
def arcSetNewCore (s : ArcState K V) (key : K) : Option (ArcState K V) :=
  if arcIsCacheFull s ∧ (s.t1.length + s.b1.length : Int) = s.size then
    if (s.t1.length : Int) < s.size then
      match arcRemoveTail? s.b1 with
      | none => none
      | some (_, b1') => arcReplace { s with b1 := b1' } key
    else
      match arcRemoveTail? s.t1 with
      | none => none
      | some (pop, t1') => some (arcDeleteItemEvict { s with t1 := t1' } pop)
  else
    if (s.t1.length + s.b1.length + s.t2.length + s.b2.length : Int) ≥ s.size then
      if (s.t1.length + s.b1.length + s.t2.length + s.b2.length : Int)
          = 2 * s.size then
        if s.b2.length > 0 then
          match arcRemoveTail? s.b2 with
          | none => none
          | some (_, b2') => arcReplace { s with b2 := b2' } key
        else
          match arcRemoveTail? s.b1 with
          | none => none
          | some (_, b1') => arcReplace { s with b1 := b1' } key
      else arcReplace s key
    else some s

/-- The branch dispatch of `ARC.set` after the entry update (lines 116-164):
existing live key, B1 ghost rehit, B2 ghost rehit, or brand-new key followed
by the final push onto the front of T1. -/
def arcSetDecide (s1 : ArcState K V) (key : K) : Option (ArcState K V) :=
  if key ∈ s1.t1 ∨ key ∈ s1.t2 then some s1
  else if key ∈ s1.b1 then arcSetGhost1 s1 key
  else if key ∈ s1.b2 then arcSetGhost2 s1 key
  else
    (arcSetNewCore s1 key).map
      (fun s2 => { s2 with t1 := arcPushFront s2.t1 key })

/-- Model of `ARC.set` (lines 84-165).  `ser` is the optional serialize hook; the
result carries the possibly updated state and the returned error, and `none`
models a Go runtime panic.  The `addedFunc` callback observes but does not
change the state and is not modelled. -/
def arcSet (ser : Option (K → V → Except Err V)) (s : ArcState K V)
    (key : K) (value : V) : Option (ArcState K V × Option Err) :=
  match (match ser with
         | none => Except.ok value
         | some f => f key value) with
  | Except.error e => some (s, some e)
  | Except.ok value =>
    (arcSetDecide (arcInsertItem s key value) key).map (fun s2 => (s2, none))

/-- Overwrite the expiration of the entry stored at `key` (the
`item.expiration = &t` writes of `SetWithExpire` and the loader callback,
acting through the pointer returned by `set`). -/
def arcSetItemExp (s : ArcState K V) (key : K) (t : Time) : ArcState K V :=
  match assocGet s.items key with
  | some it => { s with items := assocSet s.items key { it with expiration := some t } }
  | none => s

/-- Model of `ARC.SetWithExpire`. -/
def arcSetWithExpire (ser : Option (K → V → Except Err V)) (s : ArcState K V)
    (key : K) (value : V) (dur : Time) : Option (ArcState K V × Option Err) :=
  match arcSet ser s key value with
  | none => none
  | some (s', some e) => some (s', some e)
  | some (s', none) => some (arcSetItemExp s' key (s'.clock + dur), none)

/-- The terminal miss of `ARC.getValue` (lines 246-250): bump the miss
counter (unless on the loader path) and return `KeyNotFoundError`. -/
def arcMiss (s : ArcState K V) (onLoad : Bool) :
    ArcState K V × Except Err V :=
  ({ s with misses := if onLoad then s.misses else s.misses + 1 },
   Except.error Err.keyNotFound)

/-- The T2 probe of `ARC.getValue` (lines 228-244) followed by the terminal
miss: move to front on a live hit, demote to the B2 ghost list when expired
(then fall through to the miss). -/
def arcGetValueT2 (s1 : ArcState K V) (key : K) (onLoad : Bool) :
    Option (ArcState K V × Except Err V) :=
  if key ∈ s1.t2 then
    match assocGet s1.items key with
    | none => none
    | some it =>
      if ¬ arcItemIsExpired it s1.clock none then
        some ({ s1 with t2 := arcMoveToFront s1.t2 key,
                        hits := if onLoad then s1.hits else s1.hits + 1 },
              Except.ok it.value)
      else
        some (arcMiss { s1 with items := assocErase s1.items key,
                                t2 := s1.t2.erase key,
                                b2 := arcPushFront s1.b2 key,
                                evicted := s1.evicted ++ [(key, it.value)] }
              onLoad)
  else some (arcMiss s1 onLoad)

/-- Model of `ARC.getValue` (lines 208-251): probe T1 (promote to T2 on a live hit,
demote to the B1 ghost list when expired and fall through), then T2, else
count a miss.  The inner `Except` is the returned Go `(value, error)` pair;
the outer `none` models the nil dereference the Go code performs when a key
is in a live list but missing from the entry map. -/
def arcGetValue (s : ArcState K V) (key : K) (onLoad : Bool) :
    Option (ArcState K V × Except Err V) :=
  if key ∈ s.t1 then
    match assocGet s.items key with
    | none => none
    | some it =>
      if ¬ arcItemIsExpired it s.clock none then
        some ({ s with t1 := s.t1.erase key, t2 := arcPushFront s.t2 key,
                       hits := if onLoad then s.hits else s.hits + 1 },
              Except.ok it.value)
      else
        arcGetValueT2
          { s with t1 := s.t1.erase key,
                   items := assocErase s.items key,
                   b1 := arcPushFront s.b1 key,
                   evicted := s.evicted ++ [(key, it.value)] }
          key onLoad
  else arcGetValueT2 s key onLoad

/-- Model of `ARC.get` (lines 197-206): `getValue` followed by the optional
deserialize hook. -/
def arcGet (deser : Option (K → V → Except Err V)) (s : ArcState K V)
    (key : K) (onLoad : Bool) : Option (ArcState K V × Except Err V) :=
  match arcGetValue s key onLoad with
  | none => none
  | some (s', Except.error e) => some (s', Except.error e)
  | some (s', Except.ok v) =>
    match deser with
    | none => some (s', Except.ok v)
    | some f =>
      match f key v with
      | Except.ok v' => some (s', Except.ok v')
      | Except.error e => some (s', Except.error e)

/-- Model of `ARC.has` as called from `ARC.Has`: the Go `Has` passes the instant
obtained from `time.Now()` (the `realNow` argument here), not from the
configured clock. -/
def arcHas (s : ArcState K V) (realNow : Time) (key : K) : Bool :=
  match assocGet s.items key with
  | none => false
  | some it => ¬ arcItemIsExpired it s.clock (some realNow)

/-- Model of `ARC.remove` (lines 303-327).  The model corresponds to a cache with an
eviction callback configured, so the Go code's `item.value` read makes a
missing entry a nil dereference (`none`). -/
def arcRemove (s : ArcState K V) (key : K) : Option (ArcState K V × Bool) :=
  if key ∈ s.t1 then
    match assocGet s.items key with
    | none => none
    | some it =>
        some ({ s with t1 := s.t1.erase key,
                       items := assocErase s.items key,
                       b1 := arcPushFront s.b1 key,
                       evicted := s.evicted ++ [(key, it.value)] }, true)
  else if key ∈ s.t2 then
    match assocGet s.items key with
    | none => none
    | some it =>
        some ({ s with t2 := s.t2.erase key,
                       items := assocErase s.items key,
                       b2 := arcPushFront s.b2 key,
                       evicted := s.evicted ++ [(key, it.value)] }, true)
  else some (s, false)

/-- Model of `ARC.Keys`: iterates the entry map, filtering by `has` against the
ambient wall-clock instant when requested. -/
def arcKeys (s : ArcState K V) (realNow : Time) (checkExpired : Bool) : List K :=
  (s.items.map (fun p => p.1)).filter
    (fun k => !checkExpired || arcHas s realNow k)

/-- Model of `ARC.GetALL`. -/
def arcGetALL (s : ArcState K V) (realNow : Time) (checkExpired : Bool) :
    List (K × V) :=
  (s.items.filter (fun p => !checkExpired || arcHas s realNow p.1)).map
    (fun p => (p.1, p.2.value))

/-- Model of `ARC.Len`. -/
def arcLen (s : ArcState K V) (realNow : Time) (checkExpired : Bool) : Nat :=
  if !checkExpired then s.items.length
  else ((s.items.map (fun p => p.1)).filter (fun k => arcHas s realNow k)).length

/-- Model of `ARC.Purge`: `init()` resets the entry map and the four lists (but not
`part`, the counters or the clock); the purge visitor only observes. -/
def arcPurge (s : ArcState K V) : ArcState K V :=
  { s with items := [], t1 := [], t2 := [], b1 := [], b2 := [] }

/-! ### Read-through loading -/

/-- The outcome of one invocation of the configured
`LoaderExpireFunc`: either a normal return `(value, ttl, err)` or a panic
with a reason (rendered by `fmt` as a string). -/
inductive LoaderOutcome (V : Type) where
  | result (v : V) (ttl : Option Time) (err : Option Err)
  | panics (reason : String)

/-- Modelled from the spec: the single-flight `Group.Do` of the missing
singleflight source file.  For a single sequential caller with no pending
record for the key, `Do` invokes the supplied function once (with the
"called" marker true) and returns its result; `baseCache.load` wraps that
invocation in a `recover` that converts a loader panic into the error
`"loader panics: <reason>"`.  `cb` is the insert callback passed by
`getWithLoader`. -/
def loadOnce {V R : Type} (lf : LoaderOutcome V)
    (cb : V → Option Time → Option Err → R) (onPanic : Err → R) : R :=
  match lf with
  | LoaderOutcome.panics r => onPanic (Err.msg (("loader panics: ") ++ r))
  | LoaderOutcome.result v ttl err => cb v ttl err

/-- Model of `ARC.getWithLoader` (lines 253-277) composed with `baseCache.load`. -/
def arcGetWithLoader (loader : Option (K → LoaderOutcome V))
    (ser : Option (K → V → Except Err V)) (s : ArcState K V) (key : K) :
    Option (ArcState K V × Except Err V) :=
  match loader with
  | none => some (s, Except.error Err.keyNotFound)
  | some lf =>
    loadOnce (lf key)
      (fun v ttl err =>
        match err with
        | some e => some (s, Except.error e)
        | none =>
          match arcSet ser s key v with
          | none => none
          | some (s', some e) => some (s', Except.error e)
          | some (s', none) =>
            match ttl with
            | some d => some (arcSetItemExp s' key (s'.clock + d), Except.ok v)
            | none => some (s', Except.ok v))
      (fun e => some (s, Except.error e))

/-- Model of `ARC.GetWithContext`: try `get`; on `KeyNotFoundError`, take the
loader path in wait mode. -/
def arcGetWithContext (loader : Option (K → LoaderOutcome V))
    (deser ser : Option (K → V → Except Err V)) (s : ArcState K V) (key : K) :
    Option (ArcState K V × Except Err V) :=
  match arcGet deser s key false with
  | none => none
  | some (s', Except.error Err.keyNotFound) => arcGetWithLoader loader ser s' key
  | some r => some r

/-! ### LRU engine -/

/-- The `LRUCache` state: the recency list `order` (front = most recent)
holds keys; `items` maps each key to its entry.  This is the handle-based
rendering of the Go intrusive list (`items` maps K to a list element whose
value is the `lruItem`). -/
structure LruState (K V : Type) where
  clock : Time
  size : Int
  defaultExp : Option Time
  order : List K
  items : List (K × LruItem V)
  hits : Nat
  misses : Nat
  evicted : List (K × V)
deriving DecidableEq, Repr

/-- The state of a freshly built LRU cache. -/
def lruFresh (K V : Type) (size : Int) (clock : Time)
    (defaultExp : Option Time) : LruState K V :=
  { clock := clock, size := size, defaultExp := defaultExp,
    order := [], items := [], hits := 0, misses := 0, evicted := [] }

/-- Model of `LRUCache.removeElement` applied to the element holding `key`: unlink it
from the recency list, delete the entry, fire `on_evicted`. -/
def lruRemoveElement (s : LruState K V) (key : K) : LruState K V :=
  match assocGet s.items key with
  | some it =>
      { s with order := s.order.erase key,
               items := assocErase s.items key,
               evicted := s.evicted ++ [(key, it.value)] }
  | none => { s with order := s.order.erase key }

/-- Model of `LRUCache.evict(1)`: remove the element at the back of the recency list,
if any. -/
def lruEvictOne (s : LruState K V) : LruState K V :=
  match s.order.getLast? with
  | none => s
  | some k => lruRemoveElement s k

/-- Overwrite the expiration of the entry stored at `key` (LRU version). -/
def lruSetItemExp (s : LruState K V) (key : K) (t : Time) : LruState K V :=
  match assocGet s.items key with
  | some it => { s with items := assocSet s.items key { it with expiration := some t } }
  | none => s

/-- Push a brand-new entry onto the front of the recency list. -/
def lruInsertFront (s : LruState K V) (key : K) (value : V) : LruState K V :=
  { s with order := key :: s.order,
           items := assocSet s.items key { value := value, expiration := none } }

/-- The structural part of `LRUCache.set` (lines 40-57): refresh an existing
entry (move to front, overwrite value) or insert a new one, evicting the
back element first when the list is at capacity. -/
def lruSetBase (s : LruState K V) (key : K) (value : V) : LruState K V :=
  match assocGet s.items key with
  | some it =>
      { s with order := arcMoveToFront s.order key,
               items := assocSet s.items key { it with value := value } }
  | none =>
      if (s.order.length : Int) ≥ s.size then
        lruInsertFront (lruEvictOne s) key value
      else lruInsertFront s key value

/-- The default-TTL application of `LRUCache.set` (lines 59-62). -/
def lruApplyDefaultExp (s : LruState K V) (key : K) : LruState K V :=
  match s.defaultExp with
  | some d => lruSetItemExp s key (s.clock + d)
  | none => s

/-- Model of `LRUCache.set` (lines 31-69): serialize, then the structural update,
then the default TTL. -/
def lruSet (ser : Option (K → V → Except Err V)) (s : LruState K V)
    (key : K) (value : V) : LruState K V × Option Err :=
  match (match ser with
         | none => Except.ok value
         | some f => f key value) with
  | Except.error e => (s, some e)
  | Except.ok value => (lruApplyDefaultExp (lruSetBase s key value) key, none)

/-- Model of `LRUCache.SetWithExpire`. -/
def lruSetWithExpire (ser : Option (K → V → Except Err V)) (s : LruState K V)
    (key : K) (value : V) (dur : Time) : LruState K V × Option Err :=
  match lruSet ser s key value with
  | (s', some e) => (s', some e)
  | (s', none) => (lruSetItemExp s' key (s'.clock + dur), none)

/-- Model of `LRUCache.getValue` (lines 133-154): on a live hit move the element to
the front and count a hit; on an expired hit remove the element; otherwise
count a miss and return `KeyNotFoundError`. -/
def lruGetValue (s : LruState K V) (key : K) (onLoad : Bool) :
    LruState K V × Except Err V :=
  match assocGet s.items key with
  | some it =>
    if ¬ lruItemIsExpired it s.clock none then
      ({ s with order := arcMoveToFront s.order key,
                hits := if onLoad then s.hits else s.hits + 1 },
       Except.ok it.value)
    else
      let s1 := lruRemoveElement s key
      ({ s1 with misses := if onLoad then s1.misses else s1.misses + 1 },
       Except.error Err.keyNotFound)
  | none =>
      ({ s with misses := if onLoad then s.misses else s.misses + 1 },
       Except.error Err.keyNotFound)

/-- Model of `LRUCache.get` (lines 122-131): `getValue` then the optional deserialize
hook. -/
def lruGet (deser : Option (K → V → Except Err V)) (s : LruState K V)
    (key : K) (onLoad : Bool) : LruState K V × Except Err V :=
  match lruGetValue s key onLoad with
  | (s', Except.error e) => (s', Except.error e)
  | (s', Except.ok v) =>
    match deser with
    | none => (s', Except.ok v)
    | some f =>
      match f key v with
      | Except.ok v' => (s', Except.ok v')
      | Except.error e => (s', Except.error e)

/-- Model of `LRUCache.has` as called from `LRUCache.Has`: checks expiration against
the `time.Now()` instant (`realNow`), not the configured clock. -/
def lruHas (s : LruState K V) (realNow : Time) (key : K) : Bool :=
  match assocGet s.items key with
  | none => false
  | some it => ¬ lruItemIsExpired it s.clock (some realNow)

/-- Model of `LRUCache.remove`. -/
def lruRemove (s : LruState K V) (key : K) : LruState K V × Bool :=
  match assocGet s.items key with
  | some _ => (lruRemoveElement s key, true)
  | none => (s, false)

/-- Model of `LRUCache.Keys`. -/
def lruKeys (s : LruState K V) (realNow : Time) (checkExpired : Bool) : List K :=
  (s.items.map (fun p => p.1)).filter
    (fun k => !checkExpired || lruHas s realNow k)

/-- Model of `LRUCache.GetALL`. -/
def lruGetALL (s : LruState K V) (realNow : Time) (checkExpired : Bool) :
    List (K × V) :=
  (s.items.filter (fun p => !checkExpired || lruHas s realNow p.1)).map
    (fun p => (p.1, p.2.value))

/-- Model of `LRUCache.Len`. -/
def lruLen (s : LruState K V) (realNow : Time) (checkExpired : Bool) : Nat :=
  if !checkExpired then s.items.length
  else ((s.items.map (fun p => p.1)).filter (fun k => lruHas s realNow k)).length

/-- Model of `LRUCache.getWithLoader` (lines 156-180) composed with
`baseCache.load`. -/
def lruGetWithLoader (loader : Option (K → LoaderOutcome V))
    (ser : Option (K → V → Except Err V)) (s : LruState K V) (key : K) :
    LruState K V × Except Err V :=
  match loader with
  | none => (s, Except.error Err.keyNotFound)
  | some lf =>
    loadOnce (lf key)
      (fun v ttl err =>
        match err with
        | some e => (s, Except.error e)
        | none =>
          match lruSet ser s key v with
          | (s', some e) => (s', Except.error e)
          | (s', none) =>
            match ttl with
            | some d => (lruSetItemExp s' key (s'.clock + d), Except.ok v)
            | none => (s', Except.ok v))
      (fun e => (s, Except.error e))

/-- Model of `LRUCache.GetWithContext`. -/
def lruGetWithContext (loader : Option (K → LoaderOutcome V))
    (deser ser : Option (K → V → Except Err V)) (s : LruState K V) (key : K) :
    LruState K V × Except Err V :=
  match lruGet deser s key false with
  | (s', Except.error Err.keyNotFound) => lruGetWithLoader loader ser s' key
  | r => r

/-! ### ARC invariants, steps and reachability -/

/-- Number of keys in the live lists. -/
def arcLive (s : ArcState K V) : Nat := s.t1.length + s.t2.length

/-- Number of keys across all four lists. -/
def arcTotal (s : ArcState K V) : Nat :=
  s.t1.length + s.t2.length + s.b1.length + s.b2.length

/-- The spec's headline ARC size bounds. -/
def ArcInv (s : ArcState K V) : Prop :=
  (arcLive s : Int) ≤ s.size ∧ (arcTotal s : Int) ≤ 2 * s.size

/-- One state transition of the ARC engine.  Each public operation of the Go
API is one of these or a sequential composition of them: `Get`/`GetIFPresent`
run `getValue` and, on the loader path, the same insert as `Set` (with
`SetWithExpire`'s expiration override when the loader supplies a TTL).
`tick` models the configured clock advancing between operations. -/
inductive ArcStep : ArcState K V → ArcState K V → Prop where
  | set (ser : Option (K → V → Except Err V)) (k : K) (v : V)
      {s s' : ArcState K V} {e : Option Err}
      (h : arcSet ser s k v = some (s', e)) : ArcStep s s'
  | setWithExpire (ser : Option (K → V → Except Err V)) (k : K) (v : V)
      (d : Time) {s s' : ArcState K V} {e : Option Err}
      (h : arcSetWithExpire ser s k v d = some (s', e)) : ArcStep s s'
  | get (k : K) (onLoad : Bool) {s s' : ArcState K V} {r : Except Err V}
      (h : arcGetValue s k onLoad = some (s', r)) : ArcStep s s'
  | remove (k : K) {s s' : ArcState K V} {b : Bool}
      (h : arcRemove s k = some (s', b)) : ArcStep s s'
  | purge {s : ArcState K V} : ArcStep s (arcPurge s)
  | tick (t : Time) {s : ArcState K V} : ArcStep s { s with clock := t }

/-- The states an ARC cache can be in: freshly built (`Build` rejects
`size ≤ 0` for ARC) or one public-operation step from a reachable state. -/
inductive ArcReachable : ArcState K V → Prop where
  | fresh (size : Int) (clock : Time) (dexp : Option Time) (h : 1 ≤ size) :
      ArcReachable (arcFresh K V size clock dexp)
  | step {s s' : ArcState K V} :
      ArcReachable s → ArcStep s s' → ArcReachable s'

/-! ### Concrete executions used by counterexamples and witnesses -/

/-- A fresh ARC cache of capacity 1 over natural-number keys and values. -/
def arcS0 : ArcState Nat Nat := arcFresh Nat Nat 1 0 none

/-- The state `arcS0` after `Set 0 10`. -/
def arcS1 : ArcState Nat Nat := ((arcSet none arcS0 0 10).getD (arcS0, none)).1

/-- The state `arcS1` after `Remove 0`. -/
def arcS2 : ArcState Nat Nat := ((arcRemove arcS1 0).getD (arcS1, false)).1

/-- The state `arcS2` after `Set 1 20`. -/
def arcS3 : ArcState Nat Nat := ((arcSet none arcS2 1 20).getD (arcS2, none)).1

/-- An ARC state holding one live unexpired entry under a configured clock
reading 10, used to compare clock-based and wall-clock-based expiration
checks. -/
def c6Arc : ArcState Nat Nat :=
  { clock := 10, size := 2, defaultExp := none, part := 0,
    t1 := [0], t2 := [], b1 := [], b2 := [],
    items := [(0, { value := 7, expiration := some 15 })],
    hits := 0, misses := 0, evicted := [] }

/-- The LRU analogue of `c6Arc`. -/
def c6Lru : LruState Nat Nat :=
  { clock := 10, size := 2, defaultExp := none,
    order := [0], items := [(0, { value := 7, expiration := some 15 })],
    hits := 0, misses := 0, evicted := [] }

/-- The state `c6Lru` with the configured clock substituted. -/
def c6Lru999 : LruState Nat Nat := { c6Lru with clock := 999 }

/-- The state `c6Arc` with the configured clock substituted. -/
def c6Arc999 : ArcState Nat Nat := { c6Arc with clock := 999 }

/-- An LRU state holding one entry that expires exactly at instant 5, with
the configured clock also reading 5. -/
def c3Lru : LruState Nat Nat :=
  { clock := 5, size := 2, defaultExp := none, order := [0],
    items := [(0, { value := 7, expiration := some 5 })],
    hits := 0, misses := 0, evicted := [] }

/-- An LRU state holding one entry that expired at instant 3 (clock 10). -/
def c4Lru : LruState Nat Nat :=
  { clock := 10, size := 2, defaultExp := none, order := [0],
    items := [(0, { value := 7, expiration := some 3 })],
    hits := 0, misses := 0, evicted := [] }

/-- An ARC state holding one T1 entry that expired at instant 3 (clock 10). -/
def c4Arc : ArcState Nat Nat :=
  { clock := 10, size := 2, defaultExp := none, part := 0,
    t1 := [0], t2 := [], b1 := [], b2 := [],
    items := [(0, { value := 7, expiration := some 3 })],
    hits := 0, misses := 0, evicted := [] }

/-- An ARC state of size 1 whose only trace of key 5 is the B1 ghost list. -/
def c5ArcB1 : ArcState Nat Nat :=
  { clock := 0, size := 1, defaultExp := none, part := 0,
    t1 := [], t2 := [], b1 := [5], b2 := [], items := [],
    hits := 0, misses := 0, evicted := [] }

/-- An ARC state of size 1 whose only trace of key 5 is the B2 ghost list. -/
def c5ArcB2 : ArcState Nat Nat :=
  { clock := 0, size := 1, defaultExp := none, part := 0,
    t1 := [], t2 := [], b1 := [], b2 := [5], items := [],
    hits := 0, misses := 0, evicted := [] }

/-- An ARC state of size 1 holding one live T1 entry for key 0. -/
def c9Arc1 : ArcState Nat Nat :=
  { clock := 0, size := 1, defaultExp := none, part := 0,
    t1 := [0], t2 := [], b1 := [], b2 := [],
    items := [(0, { value := 7, expiration := none })],
    hits := 0, misses := 0, evicted := [] }

/-- An ARC state of size 1 holding one live T2 entry for key 0. -/
def c9Arc2 : ArcState Nat Nat :=
  { clock := 0, size := 1, defaultExp := none, part := 0,
    t1 := [], t2 := [0], b1 := [], b2 := [],
    items := [(0, { value := 7, expiration := none })],
    hits := 0, misses := 0, evicted := [] }

/-! ## Helper lemmas -/

theorem length_arcPushFront_le (l : List K) (k : K) :
    (arcPushFront l k).length ≤ l.length + 1 := by
  unfold arcPushFront
  split
  · have := (List.erase_sublist k l).length_le
    simp only [List.length_cons]
    omega
  · simp

theorem mem_arcPushFront_of_ne {l : List K} {x k : K} (hx : x ∈ l)
    (hne : x ≠ k) : x ∈ arcPushFront l k := by
  unfold arcPushFront
  split
  · exact List.mem_cons_of_mem _ ((List.mem_erase_of_ne hne).2 hx)
  · exact List.mem_cons_of_mem _ hx

theorem mem_of_mem_arcPushFront {l : List K} {x k : K}
    (hx : x ∈ arcPushFront l k) : x = k ∨ x ∈ l := by
  unfold arcPushFront at hx
  split at hx
  · rcases List.mem_cons.1 hx with h | h
    · exact Or.inl h
    · exact Or.inr ((List.erase_sublist k l).subset h)
  · exact List.mem_cons.1 hx

theorem head_arcPushFront (l : List K) (k : K) :
    (arcPushFront l k).head? = some k := by
  unfold arcPushFront
  split <;> rfl

theorem mem_arcPushFront_self (l : List K) (k : K) : k ∈ arcPushFront l k := by
  unfold arcPushFront
  split <;> exact List.mem_cons_self _ _

theorem nodup_arcPushFront {l : List K} (k : K) (h : l.Nodup) :
    (arcPushFront l k).Nodup := by
  by_cases hm : k ∈ l
  · simp only [arcPushFront, if_pos hm]
    exact List.nodup_cons.2 ⟨fun hk => ((h.mem_erase_iff).1 hk).1 rfl, h.erase k⟩
  · simp only [arcPushFront, if_neg hm]
    exact List.nodup_cons.2 ⟨hm, h⟩

theorem arcRemoveTail?_spec {l l2 : List K} {k : K}
    (h : arcRemoveTail? l = some (k, l2)) :
    k ∈ l ∧ l2 = l.dropLast ∧ l2.length + 1 = l.length := by
  unfold arcRemoveTail? at h
  cases hl : l.getLast? with
  | none => rw [hl] at h; exact absurd h (by simp)
  | some a =>
    rw [hl] at h
    have ha : a = k ∧ l.dropLast = l2 := by
      have := Option.some.inj h
      exact ⟨congrArg Prod.fst this, congrArg Prod.snd this⟩
    obtain ⟨rfl, rfl⟩ := ha
    have hne : l ≠ [] := by
      intro h0
      rw [h0] at hl
      exact absurd hl (by simp)
    refine ⟨?_, rfl, ?_⟩
    · obtain ⟨h1, h2⟩ := List.mem_getLast?_eq_getLast (Option.mem_def.2 hl)
      rw [h2]
      exact List.getLast_mem h1
    · have := List.length_dropLast l
      have : 0 < l.length := List.length_pos.2 hne
      simp [List.length_dropLast]
      omega

theorem arcRemoveTail?_isSome {l : List K} (h : l ≠ []) :
    ∃ k l2, arcRemoveTail? l = some (k, l2) := by
  unfold arcRemoveTail?
  rw [List.getLast?_eq_getLast_of_ne_nil h]
  exact ⟨_, _, rfl⟩

theorem length_assocErase_le {A : Type} (m : List (K × A)) (k : K) :
    (assocErase m k).length ≤ m.length := by
  induction m with
  | nil => simp [assocErase]
  | cons p rest ih =>
    obtain ⟨k', a⟩ := p
    simp only [assocErase]
    split
    · simp only [List.length_cons]
      omega
    · simp only [List.length_cons]
      omega

theorem assocGet_assocErase {A : Type} (m : List (K × A)) (k : K) :
    assocGet (assocErase m k) k = none := by
  induction m with
  | nil => rfl
  | cons p rest ih =>
    obtain ⟨k', a⟩ := p
    by_cases hk : k = k'
    · simpa [assocErase, hk] using ih
    · simpa [assocErase, assocGet, hk] using ih

/-! Field-preservation facts for the small state transformers. -/

@[simp] theorem arcDeleteItemEvict_t1 (s : ArcState K V) (k : K) :
    (arcDeleteItemEvict s k).t1 = s.t1 := by
  unfold arcDeleteItemEvict; split <;> rfl

@[simp] theorem arcDeleteItemEvict_t2 (s : ArcState K V) (k : K) :
    (arcDeleteItemEvict s k).t2 = s.t2 := by
  unfold arcDeleteItemEvict; split <;> rfl

@[simp] theorem arcDeleteItemEvict_b1 (s : ArcState K V) (k : K) :
    (arcDeleteItemEvict s k).b1 = s.b1 := by
  unfold arcDeleteItemEvict; split <;> rfl

@[simp] theorem arcDeleteItemEvict_b2 (s : ArcState K V) (k : K) :
    (arcDeleteItemEvict s k).b2 = s.b2 := by
  unfold arcDeleteItemEvict; split <;> rfl

@[simp] theorem arcDeleteItemEvict_size (s : ArcState K V) (k : K) :
    (arcDeleteItemEvict s k).size = s.size := by
  unfold arcDeleteItemEvict; split <;> rfl

@[simp] theorem arcDeleteItemEvict_part (s : ArcState K V) (k : K) :
    (arcDeleteItemEvict s k).part = s.part := by
  unfold arcDeleteItemEvict; split <;> rfl

@[simp] theorem arcDeleteItemEvict_clock (s : ArcState K V) (k : K) :
    (arcDeleteItemEvict s k).clock = s.clock := by
  unfold arcDeleteItemEvict; split <;> rfl

@[simp] theorem arcSetPart_t1 (s : ArcState K V) (p : Int) :
    (arcSetPart s p).t1 = s.t1 := by
  unfold arcSetPart; split <;> rfl

@[simp] theorem arcSetPart_t2 (s : ArcState K V) (p : Int) :
    (arcSetPart s p).t2 = s.t2 := by
  unfold arcSetPart; split <;> rfl

@[simp] theorem arcSetPart_b1 (s : ArcState K V) (p : Int) :
    (arcSetPart s p).b1 = s.b1 := by
  unfold arcSetPart; split <;> rfl

@[simp] theorem arcSetPart_b2 (s : ArcState K V) (p : Int) :
    (arcSetPart s p).b2 = s.b2 := by
  unfold arcSetPart; split <;> rfl

@[simp] theorem arcSetPart_size (s : ArcState K V) (p : Int) :
    (arcSetPart s p).size = s.size := by
  unfold arcSetPart; split <;> rfl

@[simp] theorem arcSetPart_clock (s : ArcState K V) (p : Int) :
    (arcSetPart s p).clock = s.clock := by
  unfold arcSetPart; split <;> rfl

theorem arcSetPart_part (s : ArcState K V) (p : Int) :
    (arcSetPart s p).part = if arcIsCacheFull s then p else s.part := by
  unfold arcSetPart; split <;> simp_all

@[simp] theorem arcInsertItem_t1 (s : ArcState K V) (k : K) (v : V) :
    (arcInsertItem s k v).t1 = s.t1 := rfl

@[simp] theorem arcInsertItem_t2 (s : ArcState K V) (k : K) (v : V) :
    (arcInsertItem s k v).t2 = s.t2 := rfl

@[simp] theorem arcInsertItem_b1 (s : ArcState K V) (k : K) (v : V) :
    (arcInsertItem s k v).b1 = s.b1 := rfl

@[simp] theorem arcInsertItem_b2 (s : ArcState K V) (k : K) (v : V) :
    (arcInsertItem s k v).b2 = s.b2 := rfl

@[simp] theorem arcInsertItem_size (s : ArcState K V) (k : K) (v : V) :
    (arcInsertItem s k v).size = s.size := rfl

@[simp] theorem arcInsertItem_part (s : ArcState K V) (k : K) (v : V) :
    (arcInsertItem s k v).part = s.part := rfl

@[simp] theorem arcInsertItem_clock (s : ArcState K V) (k : K) (v : V) :
    (arcInsertItem s k v).clock = s.clock := rfl

@[simp] theorem arcSetItemExp_t1 (s : ArcState K V) (k : K) (t : Time) :
    (arcSetItemExp s k t).t1 = s.t1 := by
  unfold arcSetItemExp; split <;> rfl

@[simp] theorem arcSetItemExp_t2 (s : ArcState K V) (k : K) (t : Time) :
    (arcSetItemExp s k t).t2 = s.t2 := by
  unfold arcSetItemExp; split <;> rfl

@[simp] theorem arcSetItemExp_b1 (s : ArcState K V) (k : K) (t : Time) :
    (arcSetItemExp s k t).b1 = s.b1 := by
  unfold arcSetItemExp; split <;> rfl

@[simp] theorem arcSetItemExp_b2 (s : ArcState K V) (k : K) (t : Time) :
    (arcSetItemExp s k t).b2 = s.b2 := by
  unfold arcSetItemExp; split <;> rfl

@[simp] theorem arcSetItemExp_size (s : ArcState K V) (k : K) (t : Time) :
    (arcSetItemExp s k t).size = s.size := by
  unfold arcSetItemExp; split <;> rfl

theorem arcIsCacheFull_iff (s : ArcState K V) :
    arcIsCacheFull s = true ↔ (arcLive s : Int) = s.size := by
  simp [arcIsCacheFull, arcLive]

theorem arcIsCacheFull_false_iff (s : ArcState K V) :
    arcIsCacheFull s = false ↔ (arcLive s : Int) ≠ s.size := by
  simp [arcIsCacheFull, arcLive]

/-! Behaviour of `arcReplace`. -/

theorem arcReplace_of_not_full {s : ArcState K V} (key : K)
    (h : arcIsCacheFull s = false) : arcReplace s key = some s := by
  unfold arcReplace
  simp [h]

theorem arcReplace_full_spec {s s2 : ArcState K V} {key : K}
    (hf : arcIsCacheFull s = true) (h : arcReplace s key = some s2) :
    arcLive s2 + 1 = arcLive s ∧ arcTotal s2 ≤ arcTotal s ∧
    s2.size = s.size ∧ s2.part = s.part ∧ s2.clock = s.clock ∧
    (∀ x, x ∈ s.b1 → x ∉ s.t1 → x ∈ s2.b1) ∧
    (∀ x, x ∈ s.b2 → x ∉ s.t2 → x ∈ s2.b2) ∧
    (∀ x, x ∈ s2.t1 → x ∈ s.t1) ∧ (∀ x, x ∈ s2.t2 → x ∈ s.t2) ∧
    (s.b1.Nodup → s2.b1.Nodup) ∧ (s.b2.Nodup → s2.b2.Nodup) := by
  unfold arcReplace at h
  rw [if_neg (not_not_intro hf)] at h
  by_cases h1 : s.t1.length > 0 ∧
      ((key ∈ s.b2 ∧ (s.t1.length : Int) = s.part) ∨ (s.t1.length : Int) > s.part)
  · rw [if_pos h1] at h
    cases ht : arcRemoveTail? s.t1 with
    | none => rw [ht] at h; exact absurd h (by simp)
    | some p =>
      obtain ⟨old, t1'⟩ := p
      rw [ht] at h
      obtain ⟨hmem, _, hlen⟩ := arcRemoveTail?_spec ht
      have hs2 := Option.some.inj h
      subst hs2
      refine ⟨?_, ?_, by simp, by simp, by simp, ?_, ?_, ?_, ?_, ?_, ?_⟩
      · simp only [arcLive, arcDeleteItemEvict_t1, arcDeleteItemEvict_t2]
        omega
      · simp only [arcTotal, arcDeleteItemEvict_t1, arcDeleteItemEvict_t2,
          arcDeleteItemEvict_b1, arcDeleteItemEvict_b2]
        have := length_arcPushFront_le s.b1 old
        omega
      · intro x hx hxt
        simp only [arcDeleteItemEvict_b1]
        exact mem_arcPushFront_of_ne hx (fun hxe => hxt (hxe ▸ hmem))
      · intro x hx _
        simpa using hx
      · intro x hx
        simp only [arcDeleteItemEvict_t1] at hx
        obtain ⟨_, hdl, _⟩ := arcRemoveTail?_spec ht
        exact (hdl ▸ List.dropLast_sublist s.t1).subset hx
      · intro x hx
        simpa using hx
      · intro hnd
        simpa using nodup_arcPushFront old hnd
      · intro hnd
        simpa using hnd
  · rw [if_neg h1] at h
    by_cases h2 : s.t2.length > 0
    · rw [if_pos h2] at h
      cases ht : arcRemoveTail? s.t2 with
      | none => rw [ht] at h; exact absurd h (by simp)
      | some p =>
        obtain ⟨old, t2'⟩ := p
        rw [ht] at h
        obtain ⟨hmem, hdl, hlen⟩ := arcRemoveTail?_spec ht
        have hs2 := Option.some.inj h
        subst hs2
        refine ⟨?_, ?_, by simp, by simp, by simp, ?_, ?_, ?_, ?_, ?_, ?_⟩
        · simp only [arcLive, arcDeleteItemEvict_t1, arcDeleteItemEvict_t2]
          omega
        · simp only [arcTotal, arcDeleteItemEvict_t1, arcDeleteItemEvict_t2,
            arcDeleteItemEvict_b1, arcDeleteItemEvict_b2]
          have := length_arcPushFront_le s.b2 old
          omega
        · intro x hx _
          simpa using hx
        · intro x hx hxt
          simp only [arcDeleteItemEvict_b2]
          exact mem_arcPushFront_of_ne hx (fun hxe => hxt (hxe ▸ hmem))
        · intro x hx
          simpa using hx
        · intro x hx
          simp only [arcDeleteItemEvict_t2] at hx
          exact (hdl ▸ List.dropLast_sublist s.t2).subset hx
        · intro hnd
          simpa using hnd
        · intro hnd
          simpa using nodup_arcPushFront old hnd
    · rw [if_neg h2] at h
      cases ht : arcRemoveTail? s.t1 with
      | none => rw [ht] at h; exact absurd h (by simp)
      | some p =>
        obtain ⟨old, t1'⟩ := p
        rw [ht] at h
        obtain ⟨hmem, hdl, hlen⟩ := arcRemoveTail?_spec ht
        have hs2 := Option.some.inj h
        subst hs2
        refine ⟨?_, ?_, by simp, by simp, by simp, ?_, ?_, ?_, ?_, ?_, ?_⟩
        · simp only [arcLive, arcDeleteItemEvict_t1, arcDeleteItemEvict_t2]
          omega
        · simp only [arcTotal, arcDeleteItemEvict_t1, arcDeleteItemEvict_t2,
            arcDeleteItemEvict_b1, arcDeleteItemEvict_b2]
          have := length_arcPushFront_le s.b1 old
          omega
        · intro x hx hxt
          simp only [arcDeleteItemEvict_b1]
          exact mem_arcPushFront_of_ne hx (fun hxe => hxt (hxe ▸ hmem))
        · intro x hx _
          simpa using hx
        · intro x hx
          simp only [arcDeleteItemEvict_t1] at hx
          exact (hdl ▸ List.dropLast_sublist s.t1).subset hx
        · intro x hx
          simpa using hx
        · intro hnd
          simpa using nodup_arcPushFront old hnd
        · intro hnd
          simpa using hnd

theorem arcReplace_isSome {s : ArcState K V} (key : K)
    (hsz : (1 : Int) ≤ s.size) : ∃ s2, arcReplace s key = some s2 := by
  by_cases hf : arcIsCacheFull s
  · have hlive : (arcLive s : Int) = s.size := (arcIsCacheFull_iff s).1 hf
    unfold arcReplace
    rw [if_neg (not_not_intro hf)]
    by_cases h1 : s.t1.length > 0 ∧
        ((key ∈ s.b2 ∧ (s.t1.length : Int) = s.part) ∨ (s.t1.length : Int) > s.part)
    · rw [if_pos h1]
      obtain ⟨k, l2, ht⟩ := arcRemoveTail?_isSome
        (l := s.t1) (by rw [← List.length_pos]; exact h1.1)
      rw [ht]
      exact ⟨_, rfl⟩
    · rw [if_neg h1]
      by_cases h2 : s.t2.length > 0
      · rw [if_pos h2]
        obtain ⟨k, l2, ht⟩ := arcRemoveTail?_isSome
          (l := s.t2) (by rw [← List.length_pos]; exact h2)
        rw [ht]
        exact ⟨_, rfl⟩
      · rw [if_neg h2]
        have ht1 : 0 < s.t1.length := by
          simp only [arcLive] at hlive
          omega
        obtain ⟨k, l2, ht⟩ := arcRemoveTail?_isSome
          (l := s.t1) (by rw [← List.length_pos]; exact ht1)
        rw [ht]
        exact ⟨_, rfl⟩
  · exact ⟨s, arcReplace_of_not_full key (by simpa using hf)⟩

theorem arcSetGhost1_spec {s s' : ArcState K V} {key : K}
    (hb : key ∈ s.b1) (h1 : key ∉ s.t1) (h2 : key ∉ s.t2)
    (h : arcSetGhost1 s key = some s') :
    s'.size = s.size ∧
    s'.part = (if arcIsCacheFull s then
        min s.size (s.part + max ((s.b2.length / s.b1.length : Nat) : Int) 1)
      else s.part) ∧
    arcTotal s' ≤ arcTotal s ∧
    (arcIsCacheFull s = true → arcLive s' ≤ arcLive s) ∧
    (arcIsCacheFull s = false → arcLive s' ≤ arcLive s + 1) ∧
    s'.t2.head? = some key ∧ key ∉ s'.t1 ∧
    (s.b1.Nodup → key ∉ s'.b1) := by
  unfold arcSetGhost1 at h
  set p := min s.size (s.part + max ((s.b2.length / s.b1.length : Nat) : Int) 1) with hp
  have hful : arcIsCacheFull (arcSetPart s p) = arcIsCacheFull s := by
    simp [arcIsCacheFull]
  cases hr : arcReplace (arcSetPart s p) key with
  | none => rw [hr] at h; exact absurd h (by simp)
  | some s2 =>
    rw [hr] at h
    have hs' := Option.some.inj h
    subst hs'
    by_cases hf : arcIsCacheFull s
    · obtain ⟨hlv, htot, hsz, hpart, _, hmb1, _, hmt1, _, hnd1, _⟩ :=
        arcReplace_full_spec (by rw [hful]; exact hf) hr
      have hkb1 : key ∈ s2.b1 := hmb1 key (by simpa using hb) (by simpa using h1)
      have hb1pos : 0 < s2.b1.length := List.length_pos_of_mem hkb1
      have hb1len : (s2.b1.erase key).length = s2.b1.length - 1 :=
        List.length_erase_of_mem hkb1
      have hpush := length_arcPushFront_le s2.t2 key
      refine ⟨by simpa using hsz, ?_, ?_, ?_, ?_, head_arcPushFront _ _, ?_, ?_⟩
      · rw [if_pos hf]
        rw [show (⟨s2.clock, s2.size, s2.defaultExp, s2.part, s2.t1,
          arcPushFront s2.t2 key, s2.b1.erase key, s2.b2, s2.items, s2.hits,
          s2.misses, s2.evicted⟩ : ArcState K V).part = s2.part from rfl]
        rw [hpart, arcSetPart_part, if_pos hf]
      · simp only [arcTotal] at htot ⊢
        simp only [arcSetPart_t1, arcSetPart_t2, arcSetPart_b1, arcSetPart_b2] at htot
        omega
      · intro _
        simp only [arcLive] at hlv ⊢
        simp only [arcSetPart_t1, arcSetPart_t2] at hlv
        omega
      · intro hc
        rw [hf] at hc
        exact absurd hc (by simp)
      · intro hk
        exact h1 (by simpa using hmt1 key hk)
      · intro hnd
        have : s2.b1.Nodup := hnd1 (by simpa using hnd)
        intro hk
        exact ((this.mem_erase_iff).1 hk).1 rfl
    · have hff : arcIsCacheFull s = false := by simpa using hf
      have hreq : arcReplace (arcSetPart s p) key = some (arcSetPart s p) :=
        arcReplace_of_not_full key (by rw [hful]; exact hff)
      rw [hreq] at hr
      have hs2 := Option.some.inj hr
      subst hs2
      have hb1len : ((s.b1).erase key).length = s.b1.length - 1 :=
        List.length_erase_of_mem hb
      have hb1pos : 0 < s.b1.length := List.length_pos_of_mem hb
      have hpush := length_arcPushFront_le s.t2 key
      refine ⟨by simp, ?_, ?_, ?_, ?_, ?_, ?_, ?_⟩
      · rw [if_neg hf]
        rw [show (⟨(arcSetPart s p).clock, (arcSetPart s p).size,
          (arcSetPart s p).defaultExp, (arcSetPart s p).part,
          (arcSetPart s p).t1, arcPushFront (arcSetPart s p).t2 key,
          (arcSetPart s p).b1.erase key, (arcSetPart s p).b2,
          (arcSetPart s p).items, (arcSetPart s p).hits,
          (arcSetPart s p).misses, (arcSetPart s p).evicted⟩ :
            ArcState K V).part = (arcSetPart s p).part from rfl]
        rw [arcSetPart_part, if_neg hf]
      · simp only [arcTotal, arcSetPart_t1, arcSetPart_t2, arcSetPart_b1,
          arcSetPart_b2]
        omega
      · intro hc
        rw [hc] at hff
        exact absurd hff (by simp)
      · intro _
        simp only [arcLive, arcSetPart_t1, arcSetPart_t2]
        omega
      · exact head_arcPushFront _ _
      · simpa using h1
      · intro hnd hk
        simp only [arcSetPart_b1] at hk
        exact ((hnd.mem_erase_iff).1 hk).1 rfl

theorem arcSetGhost2_spec {s s' : ArcState K V} {key : K}
    (hb : key ∈ s.b2) (h1 : key ∉ s.t1) (h2 : key ∉ s.t2)
    (h : arcSetGhost2 s key = some s') :
    s'.size = s.size ∧
    s'.part = (if arcIsCacheFull s then
        max 0 (s.part - max ((s.b1.length / s.b2.length : Nat) : Int) 1)
      else s.part) ∧
    arcTotal s' ≤ arcTotal s ∧
    (arcIsCacheFull s = true → arcLive s' ≤ arcLive s) ∧
    (arcIsCacheFull s = false → arcLive s' ≤ arcLive s + 1) ∧
    s'.t2.head? = some key ∧ key ∉ s'.t1 ∧
    (s.b2.Nodup → key ∉ s'.b2) := by
  unfold arcSetGhost2 at h
  set p := max 0 (s.part - max ((s.b1.length / s.b2.length : Nat) : Int) 1) with hp
  have hful : arcIsCacheFull (arcSetPart s p) = arcIsCacheFull s := by
    simp [arcIsCacheFull]
  cases hr : arcReplace (arcSetPart s p) key with
  | none => rw [hr] at h; exact absurd h (by simp)
  | some s2 =>
    rw [hr] at h
    have hs' := Option.some.inj h
    subst hs'
    by_cases hf : arcIsCacheFull s
    · obtain ⟨hlv, htot, hsz, hpart, _, _, hmb2, hmt1, _, _, hnd2⟩ :=
        arcReplace_full_spec (by rw [hful]; exact hf) hr
      have hkb2 : key ∈ s2.b2 := hmb2 key (by simpa using hb) (by simpa using h2)
      have hb2pos : 0 < s2.b2.length := List.length_pos_of_mem hkb2
      have hb2len : (s2.b2.erase key).length = s2.b2.length - 1 :=
        List.length_erase_of_mem hkb2
      have hpush := length_arcPushFront_le s2.t2 key
      refine ⟨by simpa using hsz, ?_, ?_, ?_, ?_, head_arcPushFront _ _, ?_, ?_⟩
      · rw [if_pos hf]
        rw [show (⟨s2.clock, s2.size, s2.defaultExp, s2.part, s2.t1,
          arcPushFront s2.t2 key, s2.b1, s2.b2.erase key, s2.items, s2.hits,
          s2.misses, s2.evicted⟩ : ArcState K V).part = s2.part from rfl]
        rw [hpart, arcSetPart_part, if_pos hf]
      · simp only [arcTotal] at htot ⊢
        simp only [arcSetPart_t1, arcSetPart_t2, arcSetPart_b1, arcSetPart_b2] at htot
        omega
      · intro _
        simp only [arcLive] at hlv ⊢
        simp only [arcSetPart_t1, arcSetPart_t2] at hlv
        omega
      · intro hc
        rw [hf] at hc
        exact absurd hc (by simp)
      · intro hk
        exact h1 (by simpa using hmt1 key hk)
      · intro hnd
        have hnd' : s2.b2.Nodup := hnd2 (by simpa using hnd)
        intro hk
        exact ((hnd'.mem_erase_iff).1 hk).1 rfl
    · have hff : arcIsCacheFull s = false := by simpa using hf
      have hreq : arcReplace (arcSetPart s p) key = some (arcSetPart s p) :=
        arcReplace_of_not_full key (by rw [hful]; exact hff)
      rw [hreq] at hr
      have hs2 := Option.some.inj hr
      subst hs2
      have hb2len : ((s.b2).erase key).length = s.b2.length - 1 :=
        List.length_erase_of_mem hb
      have hb2pos : 0 < s.b2.length := List.length_pos_of_mem hb
      have hpush := length_arcPushFront_le s.t2 key
      refine ⟨by simp, ?_, ?_, ?_, ?_, ?_, ?_, ?_⟩
      · rw [if_neg hf]
        rw [show (⟨(arcSetPart s p).clock, (arcSetPart s p).size,
          (arcSetPart s p).defaultExp, (arcSetPart s p).part,
          (arcSetPart s p).t1, arcPushFront (arcSetPart s p).t2 key,
          (arcSetPart s p).b1, (arcSetPart s p).b2.erase key,
          (arcSetPart s p).items, (arcSetPart s p).hits,
          (arcSetPart s p).misses, (arcSetPart s p).evicted⟩ :
            ArcState K V).part = (arcSetPart s p).part from rfl]
        rw [arcSetPart_part, if_neg hf]
      · simp only [arcTotal, arcSetPart_t1, arcSetPart_t2, arcSetPart_b1,
          arcSetPart_b2]
        omega
      · intro hc
        rw [hc] at hff
        exact absurd hff (by simp)
      · intro _
        simp only [arcLive, arcSetPart_t1, arcSetPart_t2]
        omega
      · exact head_arcPushFront _ _
      · simpa using h1
      · intro hnd hk
        simp only [arcSetPart_b2] at hk
        exact ((hnd.mem_erase_iff).1 hk).1 rfl

theorem arcSetNewCore_spec {s s2 : ArcState K V} {key : K}
    (hInv : ArcInv s) (h : arcSetNewCore s key = some s2) :
    (arcLive s2 : Int) + 1 ≤ s.size ∧ (arcTotal s2 : Int) + 1 ≤ 2 * s.size ∧
    s2.size = s.size := by
  obtain ⟨hlivesz, htotsz⟩ := hInv
  unfold arcSetNewCore at h
  split at h
  case isTrue hA =>
    obtain ⟨hf, hc⟩ := hA
    have hlive : (arcLive s : Int) = s.size := (arcIsCacheFull_iff s).1 hf
    split at h
    case isTrue hlt =>
      cases ht : arcRemoveTail? s.b1 with
      | none => rw [ht] at h; exact absurd h (by simp)
      | some p =>
        obtain ⟨x, b1'⟩ := p
        rw [ht] at h
        obtain ⟨_, _, hlen⟩ := arcRemoveTail?_spec ht
        have hf' : arcIsCacheFull { s with b1 := b1' } = true := by
          simpa [arcIsCacheFull] using hf
        obtain ⟨hlv, htot, hsz, _⟩ := arcReplace_full_spec hf' h
        have hl2 : arcLive ({ s with b1 := b1' } : ArcState K V) = arcLive s := by
          simp [arcLive]
        have ht2 : arcTotal ({ s with b1 := b1' } : ArcState K V) + 1
            = arcTotal s := by
          simp only [arcTotal]
          omega
        refine ⟨?_, ?_, by simpa using hsz⟩
        · simp only [arcLive] at *
          omega
        · simp only [arcTotal] at *
          omega
    case isFalse hlt =>
      cases ht : arcRemoveTail? s.t1 with
      | none => rw [ht] at h; exact absurd h (by simp)
      | some p =>
        obtain ⟨pop, t1'⟩ := p
        rw [ht] at h
        have hs2 := Option.some.inj h
        subst hs2
        obtain ⟨_, _, hlen⟩ := arcRemoveTail?_spec ht
        refine ⟨?_, ?_, by simp⟩
        · simp only [arcLive, arcTotal, arcDeleteItemEvict_t1,
            arcDeleteItemEvict_t2, arcDeleteItemEvict_size] at *
          omega
        · simp only [arcLive, arcTotal, arcDeleteItemEvict_t1,
            arcDeleteItemEvict_t2, arcDeleteItemEvict_b1, arcDeleteItemEvict_b2,
            arcDeleteItemEvict_size] at *
          omega
  case isFalse hA =>
    split at h
    case isTrue hge =>
      split at h
      case isTrue h2s =>
        split at h
        case isTrue hb2 =>
          cases ht : arcRemoveTail? s.b2 with
          | none => rw [ht] at h; exact absurd h (by simp)
          | some p =>
            obtain ⟨x, b2'⟩ := p
            rw [ht] at h
            obtain ⟨_, _, hlen⟩ := arcRemoveTail?_spec ht
            by_cases hf : arcIsCacheFull s
            · have hf' : arcIsCacheFull { s with b2 := b2' } = true := by
                simpa [arcIsCacheFull] using hf
              obtain ⟨hlv, htot, hsz, _⟩ := arcReplace_full_spec hf' h
              have hlive : (arcLive s : Int) = s.size := (arcIsCacheFull_iff s).1 hf
              refine ⟨?_, ?_, by simpa using hsz⟩
              · simp only [arcLive] at *
                omega
              · simp only [arcLive, arcTotal] at *
                omega
            · have hff : arcIsCacheFull ({ s with b2 := b2' } : ArcState K V)
                  = false := by
                simp only [arcIsCacheFull] at hf ⊢
                simpa using hf
              have hrepl : arcReplace ({ s with b2 := b2' } : ArcState K V) key
                  = some s2 := h
              rw [arcReplace_of_not_full key hff] at hrepl
              have hs2 := Option.some.inj hrepl
              subst hs2
              have hnf : (arcLive s : Int) ≠ s.size :=
                (arcIsCacheFull_false_iff s).1 (by simpa using hf)
              refine ⟨?_, ?_, by simp⟩
              · simp only [arcLive, arcTotal] at *
                omega
              · simp only [arcLive, arcTotal] at *
                omega
        case isFalse hb2 =>
          cases ht : arcRemoveTail? s.b1 with
          | none => rw [ht] at h; exact absurd h (by simp)
          | some p =>
            obtain ⟨x, b1'⟩ := p
            rw [ht] at h
            obtain ⟨_, _, hlen⟩ := arcRemoveTail?_spec ht
            by_cases hf : arcIsCacheFull s
            · have hf' : arcIsCacheFull { s with b1 := b1' } = true := by
                simpa [arcIsCacheFull] using hf
              obtain ⟨hlv, htot, hsz, _⟩ := arcReplace_full_spec hf' h
              have hlive : (arcLive s : Int) = s.size := (arcIsCacheFull_iff s).1 hf
              refine ⟨?_, ?_, by simpa using hsz⟩
              · simp only [arcLive] at *
                omega
              · simp only [arcLive, arcTotal] at *
                omega
            · have hff : arcIsCacheFull ({ s with b1 := b1' } : ArcState K V)
                  = false := by
                simp only [arcIsCacheFull] at hf ⊢
                simpa using hf
              have hrepl : arcReplace ({ s with b1 := b1' } : ArcState K V) key
                  = some s2 := h
              rw [arcReplace_of_not_full key hff] at hrepl
              have hs2 := Option.some.inj hrepl
              subst hs2
              have hnf : (arcLive s : Int) ≠ s.size :=
                (arcIsCacheFull_false_iff s).1 (by simpa using hf)
              refine ⟨?_, ?_, by simp⟩
              · simp only [arcLive, arcTotal] at *
                omega
              · simp only [arcLive, arcTotal] at *
                omega
      case isFalse h2s =>
        by_cases hf : arcIsCacheFull s
        · obtain ⟨hlv, htot, hsz, _⟩ := arcReplace_full_spec hf h
          have hlive : (arcLive s : Int) = s.size := (arcIsCacheFull_iff s).1 hf
          refine ⟨?_, ?_, hsz⟩
          · simp only [arcLive] at *
            omega
          · simp only [arcLive, arcTotal] at *
            omega
        · rw [arcReplace_of_not_full key (by simpa using hf)] at h
          have hs2 := Option.some.inj h
          subst hs2
          have hnf : (arcLive s : Int) ≠ s.size :=
            (arcIsCacheFull_false_iff s).1 (by simpa using hf)
          refine ⟨?_, ?_, rfl⟩
          · simp only [arcLive, arcTotal] at *
            omega
          · simp only [arcLive, arcTotal] at *
            omega
    case isFalse hge =>
      have hs2 := Option.some.inj h
      subst hs2
      refine ⟨?_, ?_, rfl⟩
      · simp only [arcLive, arcTotal] at *
        omega
      · simp only [arcLive, arcTotal] at *
        omega

theorem length_arcMoveToFront_of_mem {l : List K} {k : K} (h : k ∈ l) :
    (arcMoveToFront l k).length = l.length := by
  have := List.length_erase_of_mem h
  have := List.length_pos_of_mem h
  simp only [arcMoveToFront, List.length_cons]
  omega

theorem arcSetDecide_inv {s1 s2 : ArcState K V} {key : K}
    (hInv : ArcInv s1) (h : arcSetDecide s1 key = some s2) :
    ArcInv s2 ∧ s2.size = s1.size := by
  unfold arcSetDecide at h
  split at h
  case isTrue =>
    have hs2 := Option.some.inj h
    subst hs2
    exact ⟨hInv, rfl⟩
  case isFalse hlive =>
    push_neg at hlive
    obtain ⟨ht1, ht2⟩ := hlive
    split at h
    case isTrue hb1 =>
      obtain ⟨hsz, _, htot, hfl, hnfl, _, _, _⟩ :=
        arcSetGhost1_spec hb1 ht1 ht2 h
      refine ⟨⟨?_, ?_⟩, hsz⟩
      · by_cases hf : arcIsCacheFull s1
        · have := hfl hf
          have := (arcIsCacheFull_iff s1).1 hf
          rw [hsz]
          omega
        · have := hnfl (by simpa using hf)
          have := (arcIsCacheFull_false_iff s1).1 (by simpa using hf)
          have := hInv.1
          rw [hsz]
          omega
      · have := hInv.2
        rw [hsz]
        omega
    case isFalse hb1 =>
      split at h
      case isTrue hb2 =>
        obtain ⟨hsz, _, htot, hfl, hnfl, _, _, _⟩ :=
          arcSetGhost2_spec hb2 ht1 ht2 h
        refine ⟨⟨?_, ?_⟩, hsz⟩
        · by_cases hf : arcIsCacheFull s1
          · have := hfl hf
            have := (arcIsCacheFull_iff s1).1 hf
            rw [hsz]
            omega
          · have := hnfl (by simpa using hf)
            have := (arcIsCacheFull_false_iff s1).1 (by simpa using hf)
            have := hInv.1
            rw [hsz]
            omega
        · have := hInv.2
          rw [hsz]
          omega
      case isFalse hb2 =>
        cases hc : arcSetNewCore s1 key with
        | none => rw [hc] at h; exact absurd h (by simp)
        | some score =>
          rw [hc] at h
          have h' : some ({ score with t1 := arcPushFront score.t1 key } :
              ArcState K V) = some s2 := h
          have hs2 := Option.some.inj h'
          subst hs2
          obtain ⟨hlv, htot, hsz⟩ := arcSetNewCore_spec hInv hc
          have hpush := length_arcPushFront_le score.t1 key
          refine ⟨⟨?_, ?_⟩, by simpa using hsz⟩
          · simp only [arcLive] at *
            rw [show (⟨score.clock, score.size, score.defaultExp, score.part,
              arcPushFront score.t1 key, score.t2, score.b1, score.b2,
              score.items, score.hits, score.misses, score.evicted⟩ :
                ArcState K V).size = score.size from rfl, hsz]
            push_cast
            omega
          · simp only [arcTotal] at *
            rw [show (⟨score.clock, score.size, score.defaultExp, score.part,
              arcPushFront score.t1 key, score.t2, score.b1, score.b2,
              score.items, score.hits, score.misses, score.evicted⟩ :
                ArcState K V).size = score.size from rfl, hsz]
            push_cast
            omega

theorem arcSet_inv {ser : Option (K → V → Except Err V)}
    {s s2 : ArcState K V} {key : K} {v : V} {e : Option Err}
    (hInv : ArcInv s) (h : arcSet ser s key v = some (s2, e)) :
    ArcInv s2 ∧ s2.size = s.size := by
  unfold arcSet at h
  split at h
  case h_1 =>
    have := Option.some.inj h
    have hs2 : s = s2 := congrArg Prod.fst this
    subst hs2
    exact ⟨hInv, rfl⟩
  case h_2 v' heq =>
    cases hd : arcSetDecide (arcInsertItem s key v') key with
    | none => rw [hd] at h; exact absurd h (by simp)
    | some sd =>
      rw [hd] at h
      have h' : some ((sd, (none : Option Err))) = some (s2, e) := h
      have := Option.some.inj h'
      have hs2 : sd = s2 := congrArg Prod.fst this
      subst hs2
      have hInv1 : ArcInv (arcInsertItem s key v') := by
        obtain ⟨h1, h2⟩ := hInv
        exact ⟨by simpa [ArcInv, arcLive] using h1,
               by simpa [ArcInv, arcTotal] using h2⟩
      obtain ⟨hi, hsz⟩ := arcSetDecide_inv hInv1 hd
      exact ⟨hi, by simpa using hsz⟩

theorem arcSetWithExpire_inv {ser : Option (K → V → Except Err V)}
    {s s2 : ArcState K V} {key : K} {v : V} {d : Time} {e : Option Err}
    (hInv : ArcInv s) (h : arcSetWithExpire ser s key v d = some (s2, e)) :
    ArcInv s2 ∧ s2.size = s.size := by
  unfold arcSetWithExpire at h
  cases hs : arcSet ser s key v with
  | none => rw [hs] at h; exact absurd h (by simp)
  | some p =>
    obtain ⟨s', e'⟩ := p
    rw [hs] at h
    cases e' with
    | some err =>
      have := Option.some.inj h
      have hs2 : s' = s2 := congrArg Prod.fst this
      subst hs2
      exact arcSet_inv hInv hs
    | none =>
      have := Option.some.inj h
      have hs2 : arcSetItemExp s' key (s'.clock + d) = s2 := congrArg Prod.fst this
      subst hs2
      obtain ⟨hi, hsz⟩ := arcSet_inv hInv hs
      constructor
      · obtain ⟨h1, h2⟩ := hi
        exact ⟨by simpa [arcLive] using h1, by simpa [arcTotal] using h2⟩
      · simpa using hsz

theorem arcGetValueT2_dec {s1 s2 : ArcState K V} {key : K} {onLoad : Bool}
    {r : Except Err V} (h : arcGetValueT2 s1 key onLoad = some (s2, r)) :
    arcLive s2 ≤ arcLive s1 ∧ arcTotal s2 ≤ arcTotal s1 ∧ s2.size = s1.size := by
  unfold arcGetValueT2 at h
  by_cases hmem : key ∈ s1.t2
  case pos =>
    rw [if_pos hmem] at h
    cases hg : assocGet s1.items key with
    | none => rw [hg] at h; exact absurd h (by simp)
    | some it =>
      simp only [hg] at h
      split at h
      case isTrue =>
        have := Option.some.inj h
        have hs2 := congrArg Prod.fst this
        subst hs2
        refine ⟨?_, ?_, rfl⟩
        · simp only [arcLive]
          rw [length_arcMoveToFront_of_mem hmem]
        · simp only [arcTotal]
          rw [length_arcMoveToFront_of_mem hmem]
      case isFalse =>
        have := Option.some.inj h
        have hs2 := congrArg Prod.fst this
        subst hs2
        have hte := List.length_erase_of_mem hmem
        have htp := List.length_pos_of_mem hmem
        have hpush := length_arcPushFront_le s1.b2 key
        refine ⟨?_, ?_, rfl⟩
        · simp only [arcLive, arcMiss]
          omega
        · simp only [arcTotal, arcMiss]
          omega
  case neg =>
    rw [if_neg hmem] at h
    have := Option.some.inj h
    have hs2 := congrArg Prod.fst this
    subst hs2
    exact ⟨le_refl _, le_refl _, rfl⟩

theorem arcGetValue_dec {s s2 : ArcState K V} {key : K} {onLoad : Bool}
    {r : Except Err V} (h : arcGetValue s key onLoad = some (s2, r)) :
    arcLive s2 ≤ arcLive s ∧ arcTotal s2 ≤ arcTotal s ∧ s2.size = s.size := by
  unfold arcGetValue at h
  by_cases hmem : key ∈ s.t1
  case pos =>
    rw [if_pos hmem] at h
    cases hg : assocGet s.items key with
    | none => rw [hg] at h; exact absurd h (by simp)
    | some it =>
      simp only [hg] at h
      split at h
      case isTrue =>
        have := Option.some.inj h
        have hs2 := congrArg Prod.fst this
        subst hs2
        have hte := List.length_erase_of_mem hmem
        have htp := List.length_pos_of_mem hmem
        have hpush := length_arcPushFront_le s.t2 key
        refine ⟨?_, ?_, rfl⟩
        · simp only [arcLive]
          omega
        · simp only [arcTotal]
          omega
      case isFalse =>
        obtain ⟨hl, ht, hsz⟩ := arcGetValueT2_dec h
        have hte := List.length_erase_of_mem hmem
        have htp := List.length_pos_of_mem hmem
        have hpush := length_arcPushFront_le s.b1 key
        refine ⟨?_, ?_, by simpa using hsz⟩
        · simp only [arcLive] at *
          omega
        · simp only [arcTotal] at *
          omega
  case neg =>
    rw [if_neg hmem] at h
    exact arcGetValueT2_dec h

theorem arcRemove_dec {s s2 : ArcState K V} {key : K} {b : Bool}
    (h : arcRemove s key = some (s2, b)) :
    arcLive s2 ≤ arcLive s ∧ arcTotal s2 ≤ arcTotal s ∧ s2.size = s.size := by
  unfold arcRemove at h
  by_cases hmem : key ∈ s.t1
  case pos =>
    rw [if_pos hmem] at h
    cases hg : assocGet s.items key with
    | none => rw [hg] at h; exact absurd h (by simp)
    | some it =>
      rw [hg] at h
      have := Option.some.inj h
      have hs2 := congrArg Prod.fst this
      subst hs2
      have hte := List.length_erase_of_mem hmem
      have htp := List.length_pos_of_mem hmem
      have hpush := length_arcPushFront_le s.b1 key
      refine ⟨?_, ?_, rfl⟩
      · simp only [arcLive]
        omega
      · simp only [arcTotal]
        omega
  case neg =>
    rw [if_neg hmem] at h
    by_cases hmem2 : key ∈ s.t2
    case pos =>
      rw [if_pos hmem2] at h
      cases hg : assocGet s.items key with
      | none => rw [hg] at h; exact absurd h (by simp)
      | some it =>
        rw [hg] at h
        have := Option.some.inj h
        have hs2 := congrArg Prod.fst this
        subst hs2
        have hte := List.length_erase_of_mem hmem2
        have htp := List.length_pos_of_mem hmem2
        have hpush := length_arcPushFront_le s.b2 key
        refine ⟨?_, ?_, rfl⟩
        · simp only [arcLive]
          omega
        · simp only [arcTotal]
          omega
    case neg =>
      rw [if_neg hmem2] at h
      have := Option.some.inj h
      have hs2 := congrArg Prod.fst this
      subst hs2
      exact ⟨le_refl _, le_refl _, rfl⟩

theorem arcStep_inv {s s2 : ArcState K V} (hInv : ArcInv s)
    (hstep : ArcStep s s2) : ArcInv s2 := by
  cases hstep with
  | set ser k v h => exact (arcSet_inv hInv h).1
  | setWithExpire ser k v d h => exact (arcSetWithExpire_inv hInv h).1
  | get k onLoad h =>
    obtain ⟨hl, ht, hsz⟩ := arcGetValue_dec h
    obtain ⟨h1, h2⟩ := hInv
    exact ⟨by rw [hsz]; exact le_trans (by exact_mod_cast hl) h1,
           by rw [hsz]; exact le_trans (by exact_mod_cast ht) h2⟩
  | remove k h =>
    obtain ⟨hl, ht, hsz⟩ := arcRemove_dec h
    obtain ⟨h1, h2⟩ := hInv
    exact ⟨by rw [hsz]; exact le_trans (by exact_mod_cast hl) h1,
           by rw [hsz]; exact le_trans (by exact_mod_cast ht) h2⟩
  | purge =>
    obtain ⟨h1, h2⟩ := hInv
    constructor
    · simp only [arcLive, arcPurge, List.length_nil]
      simp only [arcLive] at h1
      push_cast
      omega
    · simp only [arcTotal, arcPurge, List.length_nil]
      simp only [arcTotal] at h2
      push_cast
      omega
  | tick t => exact hInv

theorem arc_reachable_inv {s : ArcState K V} (h : ArcReachable s) :
    ArcInv s := by
  induction h with
  | fresh size clock dexp hsz =>
    constructor
    · simp only [arcLive, arcFresh, List.length_nil]
      omega
    · simp only [arcTotal, arcFresh, List.length_nil]
      omega
  | step _ hstep ih => exact arcStep_inv ih hstep

theorem arcS1_step : arcSet none arcS0 0 10 = some (arcS1, none) := by decide

theorem arcS2_step : arcRemove arcS1 0 = some (arcS2, true) := by decide

theorem arcS3_step : arcSet none arcS2 1 20 = some (arcS3, none) := by decide

theorem arcS3_reachable : ArcReachable arcS3 :=
  ((((ArcReachable.fresh 1 0 none (by norm_num)).step
      (ArcStep.set none 0 10 arcS1_step)).step
      (ArcStep.remove 0 arcS2_step)).step
      (ArcStep.set none 1 20 arcS3_step))

/-- Claim C1 counterexample: from a fresh ARC cache of size 1, the public
sequence `Set 0`, `Remove 0`, `Set 1` reaches a state where
`|T1| + |B1| = 2 > 1 = size`: `Remove` pushes the removed key onto the B1
ghost list without trimming, and the following `Set` of a new key pushes
onto T1 without restoring the bound (the cache is not live-full, so
`replace` is a no-op). -/
theorem claimC1_counterexample :
    ArcReachable arcS3 ∧
    ¬ ((arcS3.t1.length + arcS3.b1.length : Int) ≤ arcS3.size) :=
  ⟨arcS3_reachable, by decide⟩

/-- Claim C1 (amended): in every reachable ARC state the weaker bound
`|T1| + |B1| ≤ 2·size` holds (it follows from the four-list bound); the stated
bound `|T1| + |B1| ≤ size` fails after a `Remove`. -/
theorem claimC1_amended {s : ArcState K V} (h : ArcReachable s) :
    (s.t1.length + s.b1.length : Int) ≤ 2 * s.size := by
  obtain ⟨h1, h2⟩ := arc_reachable_inv h
  simp only [arcLive, arcTotal] at h1 h2
  push_cast at h1 h2 ⊢
  omega

/-- Witness for the amended Claim C1 at the concrete reachable state
`arcS3`. -/
theorem claimC1_amended_witness :
    (arcS3.t1.length + arcS3.b1.length : Int) ≤ 2 * arcS3.size :=
  claimC1_amended arcS3_reachable

/-- Claim C2: after any sequence of public ARC operations from a fresh
cache, `|T1| + |T2| ≤ size` and `|T1| + |T2| + |B1| + |B2| ≤ 2·size`. -/
theorem claimC2_invariant {s : ArcState K V} (h : ArcReachable s) :
    (s.t1.length + s.t2.length : Int) ≤ s.size ∧
    (s.t1.length + s.t2.length + s.b1.length + s.b2.length : Int)
      ≤ 2 * s.size := by
  obtain ⟨h1, h2⟩ := arc_reachable_inv h
  simp only [arcLive, arcTotal] at h1 h2
  push_cast at h1 h2 ⊢
  exact ⟨h1, h2⟩

/-- Witness for Claim C2 at the concrete reachable state `arcS3`. -/
theorem claimC2_invariant_witness :
    (arcS3.t1.length + arcS3.t2.length : Int) ≤ arcS3.size ∧
    (arcS3.t1.length + arcS3.t2.length + arcS3.b1.length
        + arcS3.b2.length : Int) ≤ 2 * arcS3.size :=
  claimC2_invariant arcS3_reachable

/-! ### Expiration semantics (claims C3, C6) -/

/-- Claim C3 counterexample: an entry whose expiration instant equals the
access instant is still treated as live, not expired: `IsExpired` uses the
strict comparison `expiration.Before(now)`, so at `now = expiration` both
`IsExpired` checks report false, `Has` reports true, and `getValue` is a
hit. -/
theorem claimC3_counterexample :
    lruItemIsExpired ({ value := 7, expiration := some 5 } : LruItem Nat)
      0 (some 5) = false ∧
    arcItemIsExpired ({ value := 7, expiration := some 5 } : ArcItem Nat)
      0 (some 5) = false ∧
    lruHas c3Lru 5 0 = true ∧
    (lruGetValue c3Lru 0 false).2 = Except.ok 7 := by
  decide

/-- Claim C3 (amended): an entry with `expiration` set is treated as live
while `now ≤ expiration` — it expires strictly after its expiration instant
(`IsExpired` iff `expiration < now`), so an access at `now = expiration`
still sees the entry. -/
theorem claimC3_amended :
    (∀ (it : LruItem V) (c now : Time),
      lruItemIsExpired it c (some now) = false ↔
        ∀ e, it.expiration = some e → now ≤ e) ∧
    (∀ (it : ArcItem V) (c now : Time),
      arcItemIsExpired it c (some now) = false ↔
        ∀ e, it.expiration = some e → now ≤ e) ∧
    (∀ (s : LruState K V) (now : Time) (k : K),
      lruHas s now k = true ↔
        ∃ it, assocGet s.items k = some it ∧
          ∀ e, it.expiration = some e → now ≤ e) ∧
    (∀ (s : ArcState K V) (now : Time) (k : K),
      arcHas s now k = true ↔
        ∃ it, assocGet s.items k = some it ∧
          ∀ e, it.expiration = some e → now ≤ e) := by
  have hlru : ∀ (it : LruItem V) (c now : Time),
      lruItemIsExpired it c (some now) = false ↔
        ∀ e, it.expiration = some e → now ≤ e := by
    intro it c now
    unfold lruItemIsExpired
    cases hx : it.expiration with
    | none => simp
    | some e => simp [Int.not_lt]
  have harc : ∀ (it : ArcItem V) (c now : Time),
      arcItemIsExpired it c (some now) = false ↔
        ∀ e, it.expiration = some e → now ≤ e := by
    intro it c now
    unfold arcItemIsExpired
    cases hx : it.expiration with
    | none => simp
    | some e => simp [Int.not_lt]
  refine ⟨hlru, harc, ?_, ?_⟩
  · intro s now k
    unfold lruHas
    cases hg : assocGet s.items k with
    | none => simp
    | some it => simpa using (hlru it s.clock now)
  · intro s now k
    unfold arcHas
    cases hg : assocGet s.items k with
    | none => simp
    | some it => simpa using (harc it s.clock now)

/-- Claim C6 counterexample: with the configured clock reading 10 and an
entry expiring at 15 (so live according to the clock), `Has` consults the
ambient wall clock instead: it answers false at wall time 20 and true at
wall time 12, and replacing the configured clock by 999 does not change its
answer — while the `Get` path, which does use the configured clock, still
reports a live hit.  So not every expiration check uses the configured
Clock. -/
theorem claimC6_counterexample :
    lruHas c6Lru 20 0 = false ∧ lruHas c6Lru 12 0 = true ∧
    lruHas c6Lru999 20 0 = false ∧
    (lruGetValue c6Lru 0 false).2 = Except.ok 7 ∧
    arcHas c6Arc 20 0 = false ∧
    arcHas c6Arc999 20 0 = false ∧
    (arcGetValue c6Arc 0 false).map (fun p => p.2) = some (Except.ok 7) := by
  decide

/-- Claim C6 (amended): only the `Get`/`getValue` expiration check reads the
configured Clock; `Has`, `Keys`, `GetALL` and `Len` check expiration against
the ambient `time.Now()` instant and are unaffected by substituting the
configured clock. -/
theorem claimC6_amended :
    (∀ (s : LruState K V) (c realNow : Time) (k : K) (ce : Bool),
      lruHas { s with clock := c } realNow k = lruHas s realNow k ∧
      lruKeys { s with clock := c } realNow ce = lruKeys s realNow ce ∧
      lruGetALL { s with clock := c } realNow ce = lruGetALL s realNow ce ∧
      lruLen { s with clock := c } realNow ce = lruLen s realNow ce) ∧
    (∀ (s : ArcState K V) (c realNow : Time) (k : K) (ce : Bool),
      arcHas { s with clock := c } realNow k = arcHas s realNow k ∧
      arcKeys { s with clock := c } realNow ce = arcKeys s realNow ce ∧
      arcGetALL { s with clock := c } realNow ce = arcGetALL s realNow ce ∧
      arcLen { s with clock := c } realNow ce = arcLen s realNow ce) ∧
    (∀ (s : LruState K V) (k : K) (it : LruItem V),
      assocGet s.items k = some it →
        ((lruGetValue s k false).2 = Except.ok it.value ↔
          lruItemIsExpired it s.clock none = false)) := by
  refine ⟨fun s c realNow k ce => ⟨rfl, rfl, rfl, rfl⟩,
          fun s c realNow k ce => ⟨rfl, rfl, rfl, rfl⟩, ?_⟩
  intro s k it hg
  unfold lruGetValue
  simp only [hg]
  split
  case isTrue hexp =>
    simp only [Bool.not_eq_true] at hexp
    simp [hexp]
  case isFalse hexp =>
    simp only [Bool.not_eq_true] at hexp
    simp [hexp]

/-- Witness for the amended Claim C6 at the concrete state `c6Lru`. -/
theorem claimC6_amended_witness :
    (lruHas { c6Lru with clock := 999 } 20 0 = lruHas c6Lru 20 0) ∧
    ((lruGetValue c6Lru 0 false).2
        = Except.ok ({ value := 7, expiration := some 15 } : LruItem Nat).value ↔
      lruItemIsExpired ({ value := 7, expiration := some 15 } : LruItem Nat)
        c6Lru.clock none = false) :=
  ⟨(claimC6_amended.1 c6Lru 999 20 0 false).1,
   claimC6_amended.2.2 c6Lru 0 _ (by decide)⟩

/-! ### Expired reads (claim C4) -/

theorem lruItemIsExpired_true_of {it : LruItem V} {c e : Time}
    (hexp : it.expiration = some e) (he : e < c) :
    lruItemIsExpired it c none = true := by
  unfold lruItemIsExpired
  rw [hexp]
  simpa using he

theorem arcItemIsExpired_true_of {it : ArcItem V} {c e : Time}
    (hexp : it.expiration = some e) (he : e < c) :
    arcItemIsExpired it c none = true := by
  unfold arcItemIsExpired
  rw [hexp]
  simpa using he

theorem lruSet_none_snd (s : LruState K V) (k : K) (v : V) :
    (lruSet none s k v).2 = none := rfl

/-- Claim C4: a `Get` of an expired entry counts one miss and no hit,
removes the entry, fires `on_evicted` with that key, and (for
`GetWithContext` with a loader configured) proceeds to the loader path and
returns the loaded value.  Stated for the LRU engine (with the loader
follow-up) and for the ARC engine's T1 list. -/
theorem claimC4_expired_read :
    (∀ (s : LruState K V) (k : K) (it : LruItem V) (e : Time),
      assocGet s.items k = some it → it.expiration = some e → e < s.clock →
      lruGetValue s k false =
        ({ s with order := s.order.erase k,
                  items := assocErase s.items k,
                  evicted := s.evicted ++ [(k, it.value)],
                  misses := s.misses + 1 },
         Except.error Err.keyNotFound) ∧
      (∀ (lf : K → LoaderOutcome V) (v : V),
        lf k = LoaderOutcome.result v none none →
        (lruGetWithContext (some lf) none none s k).2 = Except.ok v)) ∧
    (∀ (s : ArcState K V) (k : K) (it : ArcItem V) (e : Time),
      k ∈ s.t1 → k ∉ s.t2 →
      assocGet s.items k = some it → it.expiration = some e → e < s.clock →
      arcGetValue s k false =
        some ({ s with t1 := s.t1.erase k,
                       items := assocErase s.items k,
                       b1 := arcPushFront s.b1 k,
                       evicted := s.evicted ++ [(k, it.value)],
                       misses := s.misses + 1 },
              Except.error Err.keyNotFound)) := by
  constructor
  · intro s k it e hg hexp he
    have hex : lruItemIsExpired it s.clock none = true :=
      lruItemIsExpired_true_of hexp he
    have hfirst : lruGetValue s k false =
        ({ s with order := s.order.erase k,
                  items := assocErase s.items k,
                  evicted := s.evicted ++ [(k, it.value)],
                  misses := s.misses + 1 },
         Except.error Err.keyNotFound) := by
      unfold lruGetValue
      simp only [hg]
      rw [if_neg (by simp [hex])]
      unfold lruRemoveElement
      simp only [hg]
      rfl
    refine ⟨hfirst, ?_⟩
    intro lf v hlf
    rcases hGV : lruGetValue s k false with ⟨s1, r1⟩
    have hr1 : r1 = Except.error Err.keyNotFound := by
      rw [hfirst] at hGV
      exact (congrArg Prod.snd hGV).symm
    subst hr1
    rcases hs2 : lruSet none s1 k v with ⟨s2, e2⟩
    have he2 : e2 = none := by
      have h0 := lruSet_none_snd s1 k v
      rw [hs2] at h0
      exact h0
    subst he2
    simp only [lruGetWithContext, lruGet, hGV, lruGetWithLoader, loadOnce,
      hlf, hs2]
  · intro s k it e hmem1 hmem2 hg hexp he
    have hex : arcItemIsExpired it s.clock none = true :=
      arcItemIsExpired_true_of hexp he
    unfold arcGetValue
    rw [if_pos hmem1]
    simp only [hg]
    rw [if_neg (by simp [hex])]
    unfold arcGetValueT2
    rw [if_neg (by simpa using hmem2)]
    rfl

/-- Witness for Claim C4: an expired entry (expiring at 3, clock at 10) in
a concrete LRU cache and a concrete ARC cache, with a loader returning 42. -/
theorem claimC4_expired_read_witness :
    (lruGetValue c4Lru 0 false =
      ({ clock := 10, size := 2, defaultExp := none, order := [],
         items := [], hits := 0, misses := 1, evicted := [(0, 7)] },
       Except.error Err.keyNotFound) ∧
     (lruGetWithContext
        (some (fun _ => LoaderOutcome.result 42 none none)) none none
        c4Lru 0).2 = Except.ok 42) ∧
    (arcGetValue c4Arc 0 false =
      some ({ clock := 10, size := 2, defaultExp := none, part := 0,
              t1 := [], t2 := [], b1 := [0], b2 := [],
              items := [], hits := 0, misses := 1, evicted := [(0, 7)] },
            Except.error Err.keyNotFound)) := by
  have h1 := (claimC4_expired_read (K := Nat) (V := Nat)).1
    c4Lru 0 { value := 7, expiration := some 3 } 3 (by decide) rfl (by decide)
  have h2 := (claimC4_expired_read (K := Nat) (V := Nat)).2
    c4Arc 0 { value := 7, expiration := some 3 } 3 (by decide) (by decide)
    (by decide) rfl (by decide)
  refine ⟨⟨?_, h1.2 _ 42 rfl⟩, ?_⟩
  · rw [h1.1]
    decide
  · rw [h2]
    decide

/-! ### Loader panics (claim C7) -/

/-- Claim C7: when the key misses and the configured loader panics with
reason `r`, `GetWithContext` returns the error whose message is
`"loader panics: " ++ r` (no panic propagates — the model's panic-state
`none` is not produced), and the cache state is unchanged except for the
miss counter: in particular no entry is inserted for the key. -/
theorem claimC7_loader_panic :
    ∀ (s : LruState K V) (k : K) (r : String) (lf : K → LoaderOutcome V)
      (deser ser : Option (K → V → Except Err V)),
      assocGet s.items k = none → lf k = LoaderOutcome.panics r →
      lruGetWithContext (some lf) deser ser s k =
        ({ s with misses := s.misses + 1 },
         Except.error (Err.msg (("loader panics: ") ++ r))) := by
  intro s k r lf deser ser hg hlf
  have hGV : lruGetValue s k false =
      ({ s with misses := s.misses + 1 }, Except.error Err.keyNotFound) := by
    unfold lruGetValue
    simp only [hg]
    rfl
  have hGet : lruGet deser s k false =
      ({ s with misses := s.misses + 1 }, Except.error Err.keyNotFound) := by
    simp only [lruGet, hGV]
  simp only [lruGetWithContext, hGet, lruGetWithLoader, loadOnce, hlf]

/-- Witness for Claim C7: a panicking loader on a fresh LRU cache. -/
theorem claimC7_loader_panic_witness :
    lruGetWithContext (some (fun _ => LoaderOutcome.panics ("boom")))
      none none (lruFresh Nat Nat 2 0 none) 0 =
      ({ lruFresh Nat Nat 2 0 none with
          misses := (lruFresh Nat Nat 2 0 none).misses + 1 },
       Except.error (Err.msg (("loader panics: ") ++ ("boom")))) :=
  claimC7_loader_panic (lruFresh Nat Nat 2 0 none) 0 ("boom")
    (fun _ => LoaderOutcome.panics ("boom")) none none rfl rfl

/-! ### Deserialize errors on live reads (claim C10) -/

/-- Claim C10: when the deserialize hook fails on a `get` of a live
non-expired entry, the error is returned, yet the hit counter was already
incremented (misses unchanged), the entry was already touched (moved to the
recency front in LRU; promoted from T1 to the front of T2 in ARC), and the
entry remains in the cache — the returned state differs from the input only
in the ordering structure and the hit counter. -/
theorem claimC10_deser_error :
    (∀ (s : LruState K V) (k : K) (it : LruItem V)
        (f : K → V → Except Err V) (e : Err),
      assocGet s.items k = some it →
      lruItemIsExpired it s.clock none = false →
      f k it.value = Except.error e →
      lruGet (some f) s k false =
        ({ s with order := arcMoveToFront s.order k, hits := s.hits + 1 },
         Except.error e)) ∧
    (∀ (s : ArcState K V) (k : K) (it : ArcItem V)
        (f : K → V → Except Err V) (e : Err),
      k ∈ s.t1 → assocGet s.items k = some it →
      arcItemIsExpired it s.clock none = false →
      f k it.value = Except.error e →
      arcGet (some f) s k false =
        some ({ s with t1 := s.t1.erase k, t2 := arcPushFront s.t2 k,
                       hits := s.hits + 1 },
              Except.error e)) := by
  constructor
  · intro s k it f e hg hexp hf
    have hGV : lruGetValue s k false =
        ({ s with order := arcMoveToFront s.order k, hits := s.hits + 1 },
         Except.ok it.value) := by
      unfold lruGetValue
      simp only [hg]
      rw [if_pos (by simp [hexp])]
      rfl
    simp only [lruGet, hGV, hf]
  · intro s k it f e hmem hg hexp hf
    have hGV : arcGetValue s k false =
        some ({ s with t1 := s.t1.erase k, t2 := arcPushFront s.t2 k,
                       hits := s.hits + 1 },
              Except.ok it.value) := by
      unfold arcGetValue
      rw [if_pos hmem]
      simp only [hg]
      rw [if_pos (by simp [hexp])]
      rfl
    simp only [arcGet, hGV, hf]

/-- Witness for Claim C10 on the concrete live-entry states `c6Lru` and
`c6Arc` with a deserialize hook that always fails. -/
theorem claimC10_deser_error_witness :
    lruGet (some (fun _ _ => Except.error (Err.msg ("bad")))) c6Lru 0 false =
      ({ c6Lru with order := arcMoveToFront c6Lru.order 0,
                    hits := c6Lru.hits + 1 },
       Except.error (Err.msg ("bad"))) ∧
    arcGet (some (fun _ _ => Except.error (Err.msg ("bad")))) c6Arc 0 false =
      some ({ c6Arc with t1 := c6Arc.t1.erase 0,
                         t2 := arcPushFront c6Arc.t2 0,
                         hits := c6Arc.hits + 1 },
            Except.error (Err.msg ("bad"))) :=
  ⟨claimC10_deser_error.1 c6Lru 0 { value := 7, expiration := some 15 }
      (fun _ _ => Except.error (Err.msg ("bad"))) (Err.msg ("bad"))
      (by decide) (by decide) rfl,
   claimC10_deser_error.2 c6Arc 0 { value := 7, expiration := some 15 }
      (fun _ _ => Except.error (Err.msg ("bad"))) (Err.msg ("bad"))
      (by decide) (by decide) (by decide) rfl⟩

/-! ### Ghost-list rehits on `Set` (claims C5, C9) -/

theorem arcSetGhost1_isSome (s : ArcState K V) (key : K)
    (hsz : (1 : Int) ≤ s.size) : ∃ s2, arcSetGhost1 s key = some s2 := by
  unfold arcSetGhost1
  obtain ⟨s2, hr⟩ := arcReplace_isSome (s := arcSetPart s
    (min s.size (s.part + max ((s.b2.length / s.b1.length : Nat) : Int) 1)))
    key (by simpa using hsz)
  rw [hr]
  exact ⟨_, rfl⟩

theorem arcSetGhost2_isSome (s : ArcState K V) (key : K)
    (hsz : (1 : Int) ≤ s.size) : ∃ s2, arcSetGhost2 s key = some s2 := by
  unfold arcSetGhost2
  obtain ⟨s2, hr⟩ := arcReplace_isSome (s := arcSetPart s
    (max 0 (s.part - max ((s.b1.length / s.b2.length : Nat) : Int) 1)))
    key (by simpa using hsz)
  rw [hr]
  exact ⟨_, rfl⟩

/-- The B1 ghost-rehit route through `arcSet` (with no serialize hook). -/
theorem arcSet_ghost1_route {s : ArcState K V} {k : K} (v : V)
    (ht1 : k ∉ s.t1) (ht2 : k ∉ s.t2) (hb1 : k ∈ s.b1)
    (hsz : (1 : Int) ≤ s.size) :
    ∃ s2, arcSet none s k v = some (s2, none) ∧
      s2.part = (if arcIsCacheFull s then
          min s.size (s.part + max ((s.b2.length / s.b1.length : Nat) : Int) 1)
        else s.part) ∧
      s2.t2.head? = some k ∧ k ∉ s2.t1 ∧ (s.b1.Nodup → k ∉ s2.b1) := by
  have hi1 : (arcInsertItem s k v).t1 = s.t1 := rfl
  have hi2 : (arcInsertItem s k v).t2 = s.t2 := rfl
  have hib1 : (arcInsertItem s k v).b1 = s.b1 := rfl
  obtain ⟨sg, hg⟩ := arcSetGhost1_isSome (arcInsertItem s k v) k
    (by simpa using hsz)
  obtain ⟨hsz2, hpart, _, _, _, hhead, hnt1, hnb1⟩ :=
    arcSetGhost1_spec (s := arcInsertItem s k v)
      (by rw [hib1]; exact hb1) (by rw [hi1]; exact ht1)
      (by rw [hi2]; exact ht2) hg
  refine ⟨sg, ?_, ?_, hhead, hnt1, fun hnd => hnb1 hnd⟩
  · show (arcSetDecide (arcInsertItem s k v) k).map (fun s2 => (s2, none))
        = some (sg, none)
    unfold arcSetDecide
    rw [if_neg (fun hc => hc.elim (fun hx => ht1 (hi1 ▸ hx))
      (fun hx => ht2 (hi2 ▸ hx)))]
    rw [if_pos (show k ∈ (arcInsertItem s k v).b1 by rw [hib1]; exact hb1)]
    rw [hg]
    rfl
  · rw [hpart]
    have hful : arcIsCacheFull (arcInsertItem s k v) = arcIsCacheFull s := rfl
    rw [hful]
    rfl

/-- The B2 ghost-rehit route through `arcSet` (with no serialize hook). -/
theorem arcSet_ghost2_route {s : ArcState K V} {k : K} (v : V)
    (ht1 : k ∉ s.t1) (ht2 : k ∉ s.t2) (hnb1 : k ∉ s.b1) (hb2 : k ∈ s.b2)
    (hsz : (1 : Int) ≤ s.size) :
    ∃ s2, arcSet none s k v = some (s2, none) ∧
      s2.part = (if arcIsCacheFull s then
          max 0 (s.part - max ((s.b1.length / s.b2.length : Nat) : Int) 1)
        else s.part) ∧
      s2.t2.head? = some k ∧ k ∉ s2.t1 ∧ (s.b2.Nodup → k ∉ s2.b2) := by
  have hi1 : (arcInsertItem s k v).t1 = s.t1 := rfl
  have hi2 : (arcInsertItem s k v).t2 = s.t2 := rfl
  have hib1 : (arcInsertItem s k v).b1 = s.b1 := rfl
  have hib2 : (arcInsertItem s k v).b2 = s.b2 := rfl
  obtain ⟨sg, hg⟩ := arcSetGhost2_isSome (arcInsertItem s k v) k
    (by simpa using hsz)
  obtain ⟨hsz2, hpart, _, _, _, hhead, hnt1, hnb2⟩ :=
    arcSetGhost2_spec (s := arcInsertItem s k v)
      (by rw [hib2]; exact hb2) (by rw [hi1]; exact ht1)
      (by rw [hi2]; exact ht2) hg
  refine ⟨sg, ?_, ?_, hhead, hnt1, fun hnd => hnb2 hnd⟩
  · show (arcSetDecide (arcInsertItem s k v) k).map (fun s2 => (s2, none))
        = some (sg, none)
    unfold arcSetDecide
    rw [if_neg (fun hc => hc.elim (fun hx => ht1 (hi1 ▸ hx))
      (fun hx => ht2 (hi2 ▸ hx)))]
    rw [if_neg (show k ∉ (arcInsertItem s k v).b1 by rw [hib1]; exact hnb1)]
    rw [if_pos (show k ∈ (arcInsertItem s k v).b2 by rw [hib2]; exact hb2)]
    rw [hg]
    rfl
  · rw [hpart]
    have hful : arcIsCacheFull (arcInsertItem s k v) = arcIsCacheFull s := rfl
    rw [hful]
    rfl

/-- Claim C5: a `Set` of a key found in ghost list B1 updates
`p ← min(size, p + max(1, ⌊|B2|/|B1|⌋))` — symmetrically, found in B2,
`p ← max(0, p − max(1, ⌊|B1|/|B2|⌋))` — with the update taking effect only
when `|T1| + |T2| = size` at that moment; the key is removed from the ghost
list and pushed to the front of T2. -/
theorem claimC5_ghost_rehit :
    ∀ (s : ArcState K V) (k : K) (v : V),
      k ∉ s.t1 → k ∉ s.t2 → (1 : Int) ≤ s.size →
      ((k ∈ s.b1 → s.b1.Nodup →
        ∃ s2, arcSet none s k v = some (s2, none) ∧
          s2.part = (if (s.t1.length + s.t2.length : Int) = s.size then
              min s.size
                (s.part + max ((s.b2.length / s.b1.length : Nat) : Int) 1)
            else s.part) ∧
          k ∉ s2.b1 ∧ s2.t2.head? = some k) ∧
       (k ∉ s.b1 → k ∈ s.b2 → s.b2.Nodup →
        ∃ s2, arcSet none s k v = some (s2, none) ∧
          s2.part = (if (s.t1.length + s.t2.length : Int) = s.size then
              max 0
                (s.part - max ((s.b1.length / s.b2.length : Nat) : Int) 1)
            else s.part) ∧
          k ∉ s2.b2 ∧ s2.t2.head? = some k)) := by
  intro s k v ht1 ht2 hsz
  constructor
  · intro hb1 hnd
    obtain ⟨s2, hset, hpart, hhead, hnt1, hnb1⟩ :=
      arcSet_ghost1_route v ht1 ht2 hb1 hsz
    refine ⟨s2, hset, ?_, hnb1 hnd, hhead⟩
    rw [hpart]
    by_cases hful : (s.t1.length + s.t2.length : Int) = s.size
    · rw [if_pos ((arcIsCacheFull_iff s).2 (by simpa [arcLive] using hful)),
        if_pos hful]
    · rw [if_neg (fun hc => hful (by simpa [arcLive]
        using (arcIsCacheFull_iff s).1 hc)), if_neg hful]
  · intro hnb1 hb2 hnd
    obtain ⟨s2, hset, hpart, hhead, hnt1, hnb2⟩ :=
      arcSet_ghost2_route v ht1 ht2 hnb1 hb2 hsz
    refine ⟨s2, hset, ?_, hnb2 hnd, hhead⟩
    rw [hpart]
    by_cases hful : (s.t1.length + s.t2.length : Int) = s.size
    · rw [if_pos ((arcIsCacheFull_iff s).2 (by simpa [arcLive] using hful)),
        if_pos hful]
    · rw [if_neg (fun hc => hful (by simpa [arcLive]
        using (arcIsCacheFull_iff s).1 hc)), if_neg hful]

/-- Witness for Claim C5 at the concrete ghost states `c5ArcB1` and
`c5ArcB2` (cache not live-full, so `p` stays 0 in both). -/
theorem claimC5_ghost_rehit_witness :
    (∃ s2, arcSet none c5ArcB1 5 9 = some (s2, none) ∧
      s2.part = (if (c5ArcB1.t1.length + c5ArcB1.t2.length : Int)
          = c5ArcB1.size then
        min c5ArcB1.size (c5ArcB1.part +
          max ((c5ArcB1.b2.length / c5ArcB1.b1.length : Nat) : Int) 1)
      else c5ArcB1.part) ∧
      5 ∉ s2.b1 ∧ s2.t2.head? = some 5) ∧
    (∃ s2, arcSet none c5ArcB2 5 9 = some (s2, none) ∧
      s2.part = (if (c5ArcB2.t1.length + c5ArcB2.t2.length : Int)
          = c5ArcB2.size then
        max 0 (c5ArcB2.part -
          max ((c5ArcB2.b1.length / c5ArcB2.b2.length : Nat) : Int) 1)
      else c5ArcB2.part) ∧
      5 ∉ s2.b2 ∧ s2.t2.head? = some 5) :=
  ⟨(claimC5_ghost_rehit c5ArcB1 5 9 (by decide) (by decide) (by decide)).1
      (by decide) (by decide),
   (claimC5_ghost_rehit c5ArcB2 5 9 (by decide) (by decide) (by decide)).2
      (by decide) (by decide) (by decide)⟩

/-- Claim C9: for a key live in T1 (resp. T2), `Remove` returns true,
deletes the entry and pushes the key onto the front of B1 (resp. B2); a
`Set` of the same key immediately afterwards takes the ghost-rehit path and
places the key at the front of T2, not in T1. -/
theorem claimC9_remove_then_set :
    ∀ (s : ArcState K V) (k : K) (it : ArcItem V) (v : V),
      (1 : Int) ≤ s.size → assocGet s.items k = some it →
      ((k ∈ s.t1 → k ∉ s.t2 → s.t1.Nodup →
        ∃ s2, arcRemove s k = some (s2, true) ∧
          s2.b1.head? = some k ∧ assocGet s2.items k = none ∧
          ∃ s3, arcSet none s2 k v = some (s3, none) ∧
            s3.t2.head? = some k ∧ k ∉ s3.t1) ∧
       (k ∈ s.t2 → k ∉ s.t1 → k ∉ s.b1 → s.t2.Nodup →
        ∃ s2, arcRemove s k = some (s2, true) ∧
          s2.b2.head? = some k ∧ assocGet s2.items k = none ∧
          ∃ s3, arcSet none s2 k v = some (s3, none) ∧
            s3.t2.head? = some k ∧ k ∉ s3.t1)) := by
  intro s k it v hsz hg
  constructor
  · intro hmem1 hmem2 hnd
    have hrem : arcRemove s k =
        some ({ s with t1 := s.t1.erase k,
                       items := assocErase s.items k,
                       b1 := arcPushFront s.b1 k,
                       evicted := s.evicted ++ [(k, it.value)] }, true) := by
      unfold arcRemove
      rw [if_pos hmem1]
      simp only [hg]
    refine ⟨_, hrem, head_arcPushFront _ _, assocGet_assocErase _ _, ?_⟩
    obtain ⟨s3, hset, _, hhead, hnt1, _⟩ :=
      arcSet_ghost1_route (s := { s with
        t1 := s.t1.erase k,
        items := assocErase s.items k,
        b1 := arcPushFront s.b1 k,
        evicted := s.evicted ++ [(k, it.value)] }) v
        (by simpa using fun hc => ((hnd.mem_erase_iff).1 hc).1 rfl)
        (by simpa using hmem2)
        (by simpa using mem_arcPushFront_self s.b1 k)
        (by simpa using hsz)
    exact ⟨s3, hset, hhead, hnt1⟩
  · intro hmem2 hmem1 hnb1 hnd
    have hrem : arcRemove s k =
        some ({ s with t2 := s.t2.erase k,
                       items := assocErase s.items k,
                       b2 := arcPushFront s.b2 k,
                       evicted := s.evicted ++ [(k, it.value)] }, true) := by
      unfold arcRemove
      rw [if_neg hmem1, if_pos hmem2]
      simp only [hg]
    refine ⟨_, hrem, head_arcPushFront _ _, assocGet_assocErase _ _, ?_⟩
    obtain ⟨s3, hset, _, hhead, hnt1, _⟩ :=
      arcSet_ghost2_route (s := { s with
        t2 := s.t2.erase k,
        items := assocErase s.items k,
        b2 := arcPushFront s.b2 k,
        evicted := s.evicted ++ [(k, it.value)] }) v
        (by simpa using hmem1)
        (by simpa using fun hc => ((hnd.mem_erase_iff).1 hc).1 rfl)
        (by simpa using hnb1)
        (by simpa using mem_arcPushFront_self s.b2 k)
        (by simpa using hsz)
    exact ⟨s3, hset, hhead, hnt1⟩

/-- Witness for Claim C9 at the concrete live states `c9Arc1` and
`c9Arc2`. -/
theorem claimC9_remove_then_set_witness :
    (∃ s2, arcRemove c9Arc1 0 = some (s2, true) ∧
      s2.b1.head? = some 0 ∧ assocGet s2.items 0 = none ∧
      ∃ s3, arcSet none s2 0 9 = some (s3, none) ∧
        s3.t2.head? = some 0 ∧ 0 ∉ s3.t1) ∧
    (∃ s2, arcRemove c9Arc2 0 = some (s2, true) ∧
      s2.b2.head? = some 0 ∧ assocGet s2.items 0 = none ∧
      ∃ s3, arcSet none s2 0 9 = some (s3, none) ∧
        s3.t2.head? = some 0 ∧ 0 ∉ s3.t1) :=
  ⟨(claimC9_remove_then_set c9Arc1 0 { value := 7, expiration := none } 9
      (by decide) (by decide)).1 (by decide) (by decide) (by decide),
   (claimC9_remove_then_set c9Arc2 0 { value := 7, expiration := none } 9
      (by decide) (by decide)).2 (by decide) (by decide) (by decide)
      (by decide)⟩

end GCache
